import Mathlib

/-!
Verification development for an L-Store style column storage engine
(tables split into base pages and tail-delta pages, with a page directory,
bufferpool, write-ahead log, and a query layer).

The Python source is embedded shallowly: each method becomes a Lean
function over an explicit state, machine integers become `Int` with the
signed 64-bit range checks of `int.to_bytes` made explicit, Python `None`
becomes `Option`/a tagged value, raised exceptions become an `Outcome.exc`
result, and `try/except` blocks become `PyM.tryCatch`.  State mutation is
explicit state passing; a raised exception carries the mutated-so-far
state, exactly as in Python.
-/

namespace LStore

/-- Python exception kinds raised in the embedded code. -/
inductive Exc where
  | valueError
  | keyError
  | indexError
  | runtimeError
  | overflowError
  | assertionError
  | attributeError
  | uniqueKeyViolation
  | unicodeDecodeError
  | unicodeEncodeError
  | typeError
  | zeroDivisionError
  deriving DecidableEq, Repr

/-- Result of a Python computation: a normal value, a raised exception, or
divergence (a loop that never terminates). -/
inductive Outcome (α : Type) where
  | ok (a : α)
  | exc (e : Exc)
  | div
  deriving DecidableEq, Repr

/-- State-and-exception monad mirroring Python method execution.  The state
survives a raised exception, because Python mutations performed before the
raise persist. -/
def PyM (σ : Type) (α : Type) : Type := σ → σ × Outcome α

namespace PyM

def pure (a : α) : PyM σ α := fun s => (s, .ok a)

def bind (m : PyM σ α) (f : α → PyM σ β) : PyM σ β := fun s =>
  match m s with
  | (s', .ok a) => f a s'
  | (s', .exc e) => (s', .exc e)
  | (s', .div) => (s', .div)

instance : Monad (PyM σ) where
  pure := PyM.pure
  bind := PyM.bind

def throw (e : Exc) : PyM σ α := fun s => (s, .exc e)

def diverge : PyM σ α := fun s => (s, .div)

def getS : PyM σ σ := fun s => (s, .ok s)

def modifyS (f : σ → σ) : PyM σ Unit := fun s => (f s, .ok ())

def readS (f : σ → α) : PyM σ α := fun s => (s, .ok (f s))

/-- `try: m; except Exception: return d`. -/
def tryCatch (m : PyM σ α) (d : α) : PyM σ α := fun s =>
  match m s with
  | (s', .exc _) => (s', .ok d)
  | r => r

/-- Python list indexing `l[i]` for a non-negative index (raises
`IndexError` when out of range). -/
def pyGet (l : List α) (i : Nat) : PyM σ α :=
  match l.get? i with
  | some a => PyM.pure a
  | none => PyM.throw .indexError

/-- `for x in l: f x` over an already-materialised list. -/
def forL (l : List α) (f : α → PyM σ Unit) : PyM σ Unit :=
  match l with
  | [] => PyM.pure ()
  | a :: as => PyM.bind (f a) (fun _ => forL as f)

/-- Python `assert c`. -/
def pyAssert (c : Bool) : PyM σ Unit :=
  if c then PyM.pure () else PyM.throw .assertionError

end PyM

/-- Pointwise update of a map represented as a function. -/
def upd [DecidableEq κ] (f : κ → α) (k : κ) (a : α) : κ → α :=
  fun x => if x = k then a else f x

/-! ## `lstore/config.py` -/

namespace config

def PAGE_SIZE : Nat := 4096
def DATA_SIZE : Nat := 8
def INDIRECTION_COLUMN : Nat := 0
def RID_COLUMN : Nat := 1
def TIMESTAMP_COLUMN : Nat := 2
def SCHEMA_ENCODING_COLUMN : Nat := 3
def BASE_RID_COLUMN : Nat := 4
def NUM_META_COLS : Nat := 5
def BASE_RID_BEGIN : Int := 1000
def TAIL_RID_BEGIN : Int := 2 ^ 63 - 1
def MAX_TABLE_SIZE_INT : Nat := 2
def MAX_TABLE_NAME_LEN : Nat := 2 ^ (MAX_TABLE_SIZE_INT * 8) - 1
def MERGE_INTERVAL : Int := 513
def COL_ENCODING : Nat := 2
def N_QUERY_ENCODING : Nat := 8

end config

/-! ## `lstore/page.py`: page identifiers and locations

Table names are modelled as lists of Unicode code points. -/

/-- `PageId` from `page.py`. -/
structure PageId where
  table_name : List Nat
  raw_column_index : Nat
  is_base : Bool
  page_index : Nat
  deriving DecidableEq, Repr

/-- `PageLocation` from `page.py`. -/
structure PageLocation where
  table_name : List Nat
  raw_column_index : Nat
  is_base : Bool
  page_index : Nat
  offset : Nat
  deriving DecidableEq, Repr

def PageLocation.id (l : PageLocation) : PageId :=
  ⟨l.table_name, l.raw_column_index, l.is_base, l.page_index⟩

def PageLocation.from_id (i : PageId) (off : Nat) : PageLocation :=
  ⟨i.table_name, i.raw_column_index, i.is_base, i.page_index, off⟩

/-- `columns_of(page_id, num_raw_cols)`: the page ids of all raw columns of
the conceptual page containing `page_id`. -/
def columns_of (pid : PageId) (numRawCols : Nat) : List PageId :=
  (List.range numRawCols).map fun i => { pid with raw_column_index := i }

/-- A raw column value as stored in an in-memory `Record`: a Python int,
`None`, or a schema-encoding bitarray. -/
inductive PyVal where
  | int (i : Int)
  | none
  | bits (b : List Bool)
  deriving DecidableEq, Repr

/-- Signed 64-bit range check performed by `int.to_bytes(8, ..., signed=True)`
in `DataPage.write`. -/
def fitsI64 (v : Int) : Bool := decide (-(2 ^ 63) ≤ v) && decide (v < 2 ^ 63)

/-!
The physical byte buffers (bufferpool frames backed by column files) are
modelled as two value stores indexed by page id and slot offset:
`dataV` holds the signed 64-bit integer view (`DataPage`), `seV` holds the
schema-encoding bitmap view (`SchemaEncodingPage`).  `DataPage.write`
serialises through `to_bytes` (range-checked); `SchemaEncodingPage.write`
stores the bitmap padded with zero bits to the byte-aligned column size,
and `read` truncates back to `num_columns` bits, exactly as
`bitarray.tobytes`/`frombytes` over the byte buffer do.  A fresh page is
zero filled, so the default data value is `0` and the default bitmap is
all zeros.  The single-threaded semantics of pin/read/write/unpin with the
infinite lock timeout of `config.BUFFERPOOL_LOCK_TIMEOUT = -1` is direct
store access.
-/

structure PageStore where
  dataV : PageId → Nat → Int
  seV : PageId → Nat → List Bool

/-- `SchemaEncodingPage.get_col_size`. -/
def seColSize (numColumns : Nat) : Nat := (numColumns + 7) / 8

/-! ## `lstore/index.py`

`RangedIndex` wraps a `SortedDict` from value to a `SortedSet` of base
RIDs; it is modelled as a key-sorted association list with sorted,
duplicate-free RID lists. -/

/-- Insert into a sorted duplicate-free list (`SortedSet.add`). -/
def sortedSetAdd (l : List Int) (x : Int) : List Int :=
  match l with
  | [] => [x]
  | a :: as =>
    if x < a then x :: a :: as
    else if x = a then a :: as
    else a :: sortedSetAdd as x

/-- `SortedSet.remove` (raises `KeyError` when the element is absent). -/
def sortedSetRemove (l : List Int) (x : Int) : Except Exc (List Int) :=
  match l with
  | [] => .error .keyError
  | a :: as =>
    if x = a then .ok as
    else match sortedSetRemove as x with
      | .ok as' => .ok (a :: as')
      | .error e => .error e

/-- `RangedIndex` (also `UniqueIndex`, with `_is_unique = true`). -/
structure RangedIdx where
  is_unique : Bool
  entries : List (Int × List Int)
  deriving DecidableEq, Repr

namespace RangedIdx

/-- `SortedDict.get(value)`: association-list lookup. -/
def find (ix : RangedIdx) (value : Int) : Option (List Int) :=
  (ix.entries.find? (fun e => e.1 = value)).map (·.2)

/-- `value in self._index`. -/
def containsKey (ix : RangedIdx) (value : Int) : Bool :=
  (ix.find value).isSome

/-- `self._index[value] = SortedSet()`: insert a fresh empty bucket,
keeping the keys sorted. -/
def insertEmpty (entries : List (Int × List Int)) (value : Int) :
    List (Int × List Int) :=
  match entries with
  | [] => [(value, [])]
  | e :: es =>
    if value < e.1 then (value, []) :: e :: es
    else e :: insertEmpty es value

/-- `self._index[value].add(rid)` on the bucket of `value`. -/
def bucketAdd (entries : List (Int × List Int)) (value rid : Int) :
    List (Int × List Int) :=
  entries.map fun e => if e.1 = value then (e.1, sortedSetAdd e.2 rid) else e

/-- `RangedIndex.__add` (and the public `add`). -/
def add (ix : RangedIdx) (value rid : Int) : Except Exc RangedIdx := do
  if ix.is_unique && ix.containsKey value then
    .error .uniqueKeyViolation
  else
    let entries :=
      if ix.containsKey value then ix.entries else insertEmpty ix.entries value
    .ok { ix with entries := bucketAdd entries value rid }

/-- `RangedIndex.locate`. -/
def locate (ix : RangedIdx) (value : Int) : List Int :=
  (ix.find value).getD []

/-- `del self._index[value]`. -/
def eraseKey (entries : List (Int × List Int)) (value : Int) :
    List (Int × List Int) :=
  entries.filter (fun e => ¬ e.1 = value)

/-- `RangedIndex.remove` (an `rid` of `none` removes the whole bucket;
unique indexes always erase the bucket; `SortedSet.remove` raises on a
missing rid). -/
def remove (ix : RangedIdx) (value : Int) (rid : Option Int) :
    Except Exc RangedIdx := do
  match ix.find value with
  | Option.none => .ok ix
  | some rids =>
    if ix.is_unique || rid.isNone then
      .ok { ix with entries := eraseKey ix.entries value }
    else do
      let rids' ← sortedSetRemove rids (rid.getD 0)
      .ok { ix with entries :=
        ix.entries.map fun e => if e.1 = value then (e.1, rids') else e }

end RangedIdx

/-! ## `lstore/pagedir.py`: directory state -/

/-- The mutable fields of `PageDirectory`. `_con_bp_last_con_tp` is keyed
by `Int` because the source indexes it both by page-range id (in
`__ensure_range_exists`) and by conceptual base-page index (in
`__get_tp_idx`). -/
structure Dir where
  unused_tp_idx : Nat
  unused_bp_idx : Nat
  merge_queue : List PageId
  range_last_bp : Int → Option Nat
  con_bp_last_con_tp : Int → Option (Option Nat)
  con_tp_owner : Nat → Option Nat
  con_bp_num_resolved : Nat → Nat
  con_tp_num_resolved : Nat → Nat
  offsets : Int → Option (List PageLocation)
  unused_base_rid : Int
  unused_tail_rid : Int
  num_records : PageId → Nat
  con_bp_num_records : Nat → Nat
  con_tp_num_records : Nat → Nat
  tps : Int → Option Int

/-! ## Engine state

One `Table` together with its page directory, page store, indexes,
transaction tracker and write-ahead log. -/

structure EngineState where
  name : List Nat
  num_columns : Nat
  key : Nat
  dir : Dir
  store : PageStore
  indices : List (Option RangedIdx)
  tracker : Int → Option Bool
  wal : List Nat

/-- `_data_recs_per_page`. -/
def dataRecsPerPage : Nat := config.PAGE_SIZE / config.DATA_SIZE

/-- `_se_recs_per_page` for a table with `K` data columns. -/
def seRecsPerPage (K : Nat) : Nat := config.PAGE_SIZE / seColSize K

/-- `_con_page_max_recs` for a table with `K` data columns. -/
def conPageMaxRecs (K : Nat) : Nat := min (seRecsPerPage K) dataRecsPerPage

def EngineState.num_raw_cols (s : EngineState) : Nat :=
  s.num_columns + config.NUM_META_COLS

def EngineState.maxRecs (s : EngineState) : Nat := conPageMaxRecs s.num_columns

/-! ## Page reads and writes (`page.py` views over bufferpool frames) -/

/-- `DataPage.write` (signed 64-bit, native byte order). -/
def dataWrite (pid : PageId) (off : Nat) (v : Int) : PyM EngineState Unit :=
  if fitsI64 v then
    PyM.modifyS fun s =>
      { s with store.dataV := upd s.store.dataV pid (upd (s.store.dataV pid) off v) }
  else PyM.throw .overflowError

/-- `DataPage.read`. -/
def dataRead (pid : PageId) (off : Nat) : PyM EngineState Int :=
  PyM.readS fun s => s.store.dataV pid off

/-- `DataPage.write` applied to a raw record value: writing `None` or a
bitarray raises (`AttributeError`). -/
def dataWriteVal (pid : PageId) (off : Nat) (v : PyVal) : PyM EngineState Unit :=
  match v with
  | .int i => dataWrite pid off i
  | _ => PyM.throw .attributeError

/-- `SchemaEncodingPage.write`: the bitmap is serialised by
`bitarray.tobytes` (zero-padded to whole bytes); `_write_bytes` asserts
the byte length equals the column size. -/
def seWrite (pid : PageId) (off : Nat) (b : List Bool) : PyM EngineState Unit := do
  PyM.pyAssert ((b.length + 7) / 8 = seColSize (← PyM.getS).num_columns)
  PyM.modifyS fun s =>
    let padded := b ++ List.replicate (8 * seColSize s.num_columns - b.length) false
    { s with store.seV := upd s.store.seV pid (upd (s.store.seV pid) off padded) }

/-- `SchemaEncodingPage.write` applied to a raw record value: only a
bitarray is accepted. -/
def seWriteVal (pid : PageId) (off : Nat) (v : PyVal) : PyM EngineState Unit :=
  match v with
  | .bits b => seWrite pid off b
  | _ => PyM.throw .attributeError

/-- `SchemaEncodingPage.read`: reads the column-size bytes at the offset
and truncates the resulting bit string to `num_columns` bits. -/
def seRead (pid : PageId) (off : Nat) : PyM EngineState (List Bool) :=
  PyM.readS fun s =>
    ((s.store.seV pid off) ++ List.replicate (8 * seColSize s.num_columns) false).take
      s.num_columns

/-! ## `lstore/pagedir.py`: operations

All directory methods run under the directory's write-preferring RW lock;
in the single-threaded embedding the lock is invisible.  `alloc_tail_rid`
may ask the table to spawn a background merge thread
(`self.table.notify_merge()`); background merging is outside the embedded
fragment, and `notify_merge` returns immediately, so it is a no-op
here. -/

/-- Python dictionary read `d[k]` (raises `KeyError` when absent). -/
def dictGet (v : Option α) : PyM σ α :=
  match v with
  | some a => PyM.pure a
  | Option.none => PyM.throw .keyError

/-- `PageDirectory.__set_num_records`. -/
def setNumRecords (pid : PageId) (value : Nat) : PyM EngineState Unit := do
  let s ← PyM.getS
  PyM.pyAssert (value ≤ s.maxRecs)
  PyM.modifyS fun s =>
    let s := { s with dir.num_records := upd s.dir.num_records pid value }
    if pid.is_base then
      { s with dir.con_bp_num_records := upd s.dir.con_bp_num_records pid.page_index (max value (s.dir.con_bp_num_records pid.page_index)) }
    else
      { s with dir.con_tp_num_records := upd s.dir.con_tp_num_records pid.page_index (max value (s.dir.con_tp_num_records pid.page_index)) }

/-- `PageDirectory.__get_num_records` (a `defaultdict`, so never raises). -/
def getNumRecords (pid : PageId) : PyM EngineState Nat :=
  PyM.readS fun s => s.dir.num_records pid

/-- `PageDirectory.__ensure_range_exists`. -/
def ensureRangeExists (range_id : Int) : PyM EngineState Unit := do
  let s ← PyM.getS
  if (s.dir.range_last_bp range_id).isNone then
    PyM.modifyS fun s =>
      { s with
        dir.range_last_bp := upd s.dir.range_last_bp range_id (some s.dir.unused_bp_idx)
        dir.unused_bp_idx := s.dir.unused_bp_idx + 1 }
  let s ← PyM.getS
  if (s.dir.con_bp_last_con_tp range_id).isNone then
    PyM.modifyS fun s =>
      { s with dir.con_bp_last_con_tp := upd s.dir.con_bp_last_con_tp range_id (some Option.none) }

/-- `PageDirectory.__get_range_bp_idx`. -/
def getRangeBpIdx (range_id : Int) : PyM EngineState Nat := do
  let s ← PyM.getS
  let bp_idx ← dictGet (s.dir.range_last_bp range_id)
  if s.dir.con_bp_num_records bp_idx < s.maxRecs then
    PyM.pure bp_idx
  else do
    let s ← PyM.getS
    let bp_idx := s.dir.unused_bp_idx
    PyM.modifyS fun s =>
      { s with
        dir.unused_bp_idx := s.dir.unused_bp_idx + 1
        dir.range_last_bp := upd s.dir.range_last_bp range_id (some bp_idx) }
    PyM.pure bp_idx

/-- Monadic accumulation used for the `offsets` lists built by the
allocators: runs `f` on each element, collecting the `some` results. -/
def collectL (l : List α) (f : α → PyM σ (Option β)) : PyM σ (List β) :=
  match l with
  | [] => PyM.pure []
  | a :: as =>
    PyM.bind (f a) fun b =>
      PyM.bind (collectL as f) fun bs =>
        PyM.pure (match b with | some b' => b' :: bs | Option.none => bs)

/-- `PageDirectory.__alloc_bp_space`. -/
def allocBpSpace (bp_idx : Nat) : PyM EngineState (List PageLocation) := do
  let s ← PyM.getS
  let start : PageLocation := ⟨s.name, 0, true, bp_idx, 0⟩
  collectL (columns_of start.id s.num_raw_cols) fun bp => do
    let n ← PyM.readS fun s => s.dir.num_records bp
    setNumRecords bp (n + 1)
    PyM.pure (some (PageLocation.from_id bp n))

/-- `PageDirectory.alloc_base_rid`. -/
def allocBaseRid : PyM EngineState (Int × List PageLocation) := do
  let s ← PyM.getS
  let rid := s.dir.unused_base_rid
  PyM.modifyS fun s => { s with dir.unused_base_rid := s.dir.unused_base_rid + 1 }
  let base_rec_idx := rid - config.BASE_RID_BEGIN
  if s.maxRecs = 0 then PyM.throw .zeroDivisionError
  let range_id := Int.fdiv base_rec_idx s.maxRecs
  ensureRangeExists range_id
  let bp_idx ← getRangeBpIdx range_id
  let offs ← allocBpSpace bp_idx
  PyM.modifyS fun s =>
    { s with
      dir.offsets := upd s.dir.offsets rid (some offs)
      dir.tps := upd s.dir.tps rid (some (config.TAIL_RID_BEGIN + 1)) }
  PyM.pure (rid, offs)

/-- `PageDirectory.__get_tp_idx`. -/
def getTpIdx (bp_idx : Nat) : PyM EngineState Nat := do
  let s ← PyM.getS
  let tpOpt ← dictGet (s.dir.con_bp_last_con_tp (bp_idx : Int))
  match tpOpt with
  | some tp_idx =>
    if s.dir.con_tp_num_records tp_idx < s.maxRecs then
      PyM.pure tp_idx
    else
      freshTp bp_idx
  | Option.none => freshTp bp_idx
where
  /-- The `else` branch allocating a fresh conceptual tail page index. -/
  freshTp (bp_idx : Nat) : PyM EngineState Nat := do
    let s ← PyM.getS
    let tp_idx := s.dir.unused_tp_idx
    PyM.modifyS fun s =>
      { s with
        dir.unused_tp_idx := s.dir.unused_tp_idx + 1
        dir.con_bp_last_con_tp :=
          upd s.dir.con_bp_last_con_tp (bp_idx : Int) (some (some tp_idx))
        dir.con_tp_owner := upd s.dir.con_tp_owner tp_idx (some bp_idx) }
    PyM.pure tp_idx

/-- `PageDirectory.__alloc_tp_space` (columns whose schema-encoding bit is
0 are skipped and consume no tail space). -/
def allocTpSpace (tp_idx : Nat) (schema_encoding : List Bool) :
    PyM EngineState (List PageLocation) := do
  let s ← PyM.getS
  let start : PageLocation := ⟨s.name, 0, false, tp_idx, 0⟩
  collectL (columns_of start.id s.num_raw_cols) fun tp => do
    let raw_col_idx := tp.raw_column_index
    let col_idx := raw_col_idx - config.NUM_META_COLS
    if raw_col_idx ≥ config.NUM_META_COLS then do
      let bit ← PyM.pyGet schema_encoding col_idx
      if bit = false then
        PyM.pure Option.none
      else do
        let n ← getNumRecords tp
        setNumRecords tp (n + 1)
        PyM.pure (some (PageLocation.from_id tp n))
    else do
      let n ← getNumRecords tp
      setNumRecords tp (n + 1)
      PyM.pure (some (PageLocation.from_id tp n))

/-- `PageDirectory.alloc_tail_rid`. -/
def allocTailRid (base_rid : Int) (schema_encoding : List Bool) :
    PyM EngineState (Int × List PageLocation) := do
  let s ← PyM.getS
  let rid := s.dir.unused_tail_rid
  -- `if rid % MERGE_INTERVAL == MERGE_INTERVAL - 1: self.table.notify_merge()`
  -- (spawns the background merge worker; a no-op in this fragment)
  PyM.modifyS fun s => { s with dir.unused_tail_rid := s.dir.unused_tail_rid - 1 }
  let base_rec_idx := base_rid - config.BASE_RID_BEGIN
  if s.maxRecs = 0 then PyM.throw .zeroDivisionError
  let _range_id := Int.fdiv base_rec_idx s.maxRecs
  ensureRangeExists _range_id
  let s ← PyM.getS
  let locs ← dictGet (s.dir.offsets base_rid)
  let loc0 ← PyM.pyGet locs 0
  let bp_idx := loc0.page_index
  let tp_idx ← getTpIdx bp_idx
  let offs ← allocTpSpace tp_idx schema_encoding
  PyM.modifyS fun s => { s with dir.offsets := upd s.dir.offsets rid (some offs) }
  PyM.pure (rid, offs)

/-- `PageDirectory.is_base_rec`. -/
def isBaseRec (rid : Int) : PyM EngineState Bool :=
  PyM.readS fun s =>
    decide (config.BASE_RID_BEGIN ≤ rid) && decide (rid < s.dir.unused_base_rid)

/-- `PageDirectory.get_base_record_location`. -/
def getBaseRecordLocation (base_rid : Int) :
    PyM EngineState (Int × List PageLocation) := do
  let s ← PyM.getS
  if config.BASE_RID_BEGIN ≤ base_rid ∧ base_rid < s.dir.unused_base_rid then do
    let tps ← dictGet (s.dir.tps base_rid)
    let locs ← dictGet (s.dir.offsets base_rid)
    PyM.pure (tps, locs)
  else PyM.throw .valueError

/-- `PageDirectory.get_tail_record_location`. -/
def getTailRecordLocation (tail_rid : Int) : PyM EngineState (List PageLocation) := do
  let s ← PyM.getS
  if config.TAIL_RID_BEGIN ≥ tail_rid ∧ tail_rid > s.dir.unused_tail_rid then
    dictGet (s.dir.offsets tail_rid)
  else PyM.throw .valueError

/-- `PageDirectory.is_aborted_xact`. -/
def isAbortedXact (timestamp : Int) : PyM EngineState Bool :=
  PyM.readS fun s =>
    if timestamp = 0 then false
    else ((s.tracker timestamp).getD false) = true

/-- `PageDirectory.__mark_resolved`. -/
def markResolved (rid : Int) : PyM EngineState Unit := do
  let s ← PyM.getS
  let locs ← dictGet (s.dir.offsets rid)
  let page_id ← PyM.pyGet locs 0
  if page_id.is_base then
    PyM.modifyS fun s =>
      { s with dir.con_bp_num_resolved := upd s.dir.con_bp_num_resolved page_id.page_index (s.dir.con_bp_num_resolved page_id.page_index + 1) }
  else do
    PyM.modifyS fun s =>
      { s with dir.con_tp_num_resolved := upd s.dir.con_tp_num_resolved page_id.page_index (s.dir.con_tp_num_resolved page_id.page_index + 1) }
    let tp_idx := page_id.page_index
    let s ← PyM.getS
    let bp_idx ← dictGet (s.dir.con_tp_owner tp_idx)
    if s.dir.con_bp_num_resolved bp_idx ≠ s.maxRecs then
      PyM.pure ()
    else if s.dir.con_tp_num_resolved tp_idx ≠ s.maxRecs then
      PyM.pure ()
    else
      PyM.modifyS fun s =>
        { s with dir.merge_queue := s.dir.merge_queue ++ [page_id.id] }

/-- `PageDirectory.notify_resolve`. -/
def notifyResolve (affected_rids : List Int) : PyM EngineState Unit :=
  PyM.forL affected_rids markResolved

/-- `PageDirectory.clear_merge_queue`. -/
def clearMergeQueue : PyM EngineState (List PageId) := do
  let s ← PyM.getS
  PyM.modifyS fun s => { s with dir.merge_queue := [] }
  PyM.pure s.dir.merge_queue

/-! ### `PageDirectory.save` / `PageDirectory.load`

`save` writes four decimal integers, one per line, to `values.txt`
(`_unused_tp_idx`, `_unused_bp_idx`, `_unused_base_rid`,
`_unused_tail_rid`) and pickles each internal map to its own sidecar
file.  Decimal text and pickle round-trip Python values exactly, so the
sidecar files are modelled by the values themselves. -/

structure DirSidecar where
  /-- The four lines of `values.txt`, in the order written by `save`. -/
  values_lines : List Int
  num_records : PageId → Nat
  offsets : Int → Option (List PageLocation)
  con_bp_num_records : Nat → Nat
  con_tp_num_records : Nat → Nat
  tps : Int → Option Int
  merge_queue : List PageId
  range_last_bp : Int → Option Nat
  con_bp_last_con_tp : Int → Option (Option Nat)
  con_bp_num_resolved : Nat → Nat
  con_tp_num_resolved : Nat → Nat

/-- `PageDirectory.save`. -/
def dirSave (s : EngineState) : DirSidecar :=
  { values_lines :=
      [(s.dir.unused_tp_idx : Int), (s.dir.unused_bp_idx : Int),
        s.dir.unused_base_rid, s.dir.unused_tail_rid]
    num_records := s.dir.num_records
    offsets := s.dir.offsets
    con_bp_num_records := s.dir.con_bp_num_records
    con_tp_num_records := s.dir.con_tp_num_records
    tps := s.dir.tps
    merge_queue := s.dir.merge_queue
    range_last_bp := s.dir.range_last_bp
    con_bp_last_con_tp := s.dir.con_bp_last_con_tp
    con_bp_num_resolved := s.dir.con_bp_num_resolved
    con_tp_num_resolved := s.dir.con_tp_num_resolved }

/-- `PageDirectory.load` applied to a sidecar written by `save`
(`values.txt` exists, so the early return is not taken).  Note the source
reads `lines[2]` into **both** `_unused_base_rid` and `_unused_tail_rid`;
`lines[3]` is never read. -/
def dirLoad (f : DirSidecar) : PyM EngineState Unit := do
  let l0 ← PyM.pyGet f.values_lines 0
  let l1 ← PyM.pyGet f.values_lines 1
  let l2 ← PyM.pyGet f.values_lines 2
  PyM.modifyS fun s =>
    { s with
      dir.unused_tp_idx := l0.toNat
      dir.unused_bp_idx := l1.toNat
      dir.unused_base_rid := l2
      dir.unused_tail_rid := l2 }
  PyM.modifyS fun s =>
    { s with
      dir.num_records := f.num_records
      dir.offsets := f.offsets
      dir.con_bp_num_records := f.con_bp_num_records
      dir.con_tp_num_records := f.con_tp_num_records
      dir.tps := f.tps
      dir.merge_queue := f.merge_queue
      dir.range_last_bp := f.range_last_bp
      dir.con_bp_last_con_tp := f.con_bp_last_con_tp
      dir.con_bp_num_resolved := f.con_bp_num_resolved
      dir.con_tp_num_resolved := f.con_tp_num_resolved }
  PyM.pure ()

/-! ## `lstore/record.py` -/

/-- In-memory `Record`.  `raw_columns` is
`[INDIRECTION, RID, TIMESTAMP, SCHEMA_ENCODING, BASE_RID, col_0, …]`. -/
structure Record where
  key_col : Nat
  raw_columns : List PyVal
  is_deleted : Bool
  deriving DecidableEq, Repr

namespace Record

/-- `Record.__init__`: pad `raw_columns` to the metadata width with integer
zeros, and replace a non-bitarray schema-encoding slot with an empty
bitarray. -/
def init (key_col : Nat) (raw : List PyVal) : Record :=
  let raw :=
    if raw.length < config.NUM_META_COLS then
      raw ++ List.replicate (config.NUM_META_COLS - raw.length) (PyVal.int 0)
    else raw
  let raw :=
    match raw.get? config.SCHEMA_ENCODING_COLUMN with
    | some (.bits _) => raw
    | _ => raw.set config.SCHEMA_ENCODING_COLUMN (.bits [])
  ⟨key_col, raw, false⟩

/-- `Record.columns` (user data columns). -/
def columns (r : Record) : List PyVal := r.raw_columns.drop config.NUM_META_COLS

/-- `Record.columns` setter (`raw_columns[NUM_META_COLS:] = value`). -/
def setColumns (r : Record) (value : List PyVal) : Record :=
  { r with raw_columns := r.raw_columns.take config.NUM_META_COLS ++ value }

/-- `Record.indirection` getter (`0` means no successor, reported as
`None`).  Only integer raw values occur in the embedded flows. -/
def indirection (r : Record) : Option Int :=
  match r.raw_columns.get? config.INDIRECTION_COLUMN with
  | some (.int i) => if i = 0 then Option.none else some i
  | _ => Option.none

/-- `Record.indirection` setter (`rid if rid else 0`). -/
def setIndirection (r : Record) (rid : Option Int) : Record :=
  { r with raw_columns :=
      r.raw_columns.set config.INDIRECTION_COLUMN (.int (rid.getD 0)) }

/-- `Record.rid` getter (integer raw values only in the embedded flows). -/
def rid (r : Record) : Int :=
  match r.raw_columns.get? config.RID_COLUMN with
  | some (.int i) => i
  | _ => 0

def setRid (r : Record) (value : Int) : Record :=
  { r with raw_columns := r.raw_columns.set config.RID_COLUMN (.int value) }

def timestamp (r : Record) : Int :=
  match r.raw_columns.get? config.TIMESTAMP_COLUMN with
  | some (.int i) => i
  | _ => 0

def setTimestamp (r : Record) (value : Int) : Record :=
  { r with raw_columns := r.raw_columns.set config.TIMESTAMP_COLUMN (.int value) }

def schema_encoding (r : Record) : List Bool :=
  match r.raw_columns.get? config.SCHEMA_ENCODING_COLUMN with
  | some (.bits b) => b
  | _ => []

def setSchema (r : Record) (b : List Bool) : Record :=
  { r with raw_columns :=
      r.raw_columns.set config.SCHEMA_ENCODING_COLUMN (.bits b) }

def base_rid (r : Record) : Int :=
  match r.raw_columns.get? config.BASE_RID_COLUMN with
  | some (.int i) => i
  | _ => 0

def setBaseRid (r : Record) (value : Int) : Record :=
  { r with raw_columns := r.raw_columns.set config.BASE_RID_COLUMN (.int value) }

def setIsDeleted (r : Record) (value : Bool) : Record := { r with is_deleted := value }

/-- `Record.filter_columns`: keep the data columns whose projection flag is
`1` (`zip` truncates at the shorter list). -/
def filter_columns (r : Record) (projected_column_indices : List Int) : Record :=
  r.setColumns
    (((r.columns.zip projected_column_indices).filter (fun p => p.2 = 1)).map (·.1))

end Record

/-! ## `lstore/table.py` -/

/-- Monadic `map` used for loops that build a list of results. -/
def mapL (l : List α) (f : α → PyM σ β) : PyM σ (List β) :=
  match l with
  | [] => PyM.pure []
  | a :: as =>
    PyM.bind (f a) fun b => PyM.bind (mapL as f) fun bs => PyM.pure (b :: bs)

/-- Python list assignment `l[i] = v` (raises `IndexError` out of range). -/
def pySet (l : List α) (i : Nat) (v : α) : PyM σ (List α) :=
  if i < l.length then PyM.pure (l.set i v) else PyM.throw .indexError

/-- `Table.add_base_record`: returns the allocated base RID.  (The
`alloc_base_rid` result is never `None` and the bufferpool writes always
yield a live buffer in the sequential embedding, so the `False` branches of
the source are dead here.) -/
def addBaseRecord (rec0 : Record) : PyM EngineState Int := do
  let (base_rid, page_indx) ← allocBaseRid
  let s ← PyM.getS
  let r1 := rec0.setBaseRid base_rid
  let r2 := r1.setRid base_rid
  let r3 := r2.setIndirection Option.none
  let r4 := r3.setSchema (List.replicate s.num_columns false)
  let raw_cols := r4.raw_columns
  PyM.forL page_indx fun page_info =>
    if page_info.raw_column_index = config.SCHEMA_ENCODING_COLUMN then
      seWrite page_info.id page_info.offset r4.schema_encoding
    else do
      let v ← PyM.pyGet raw_cols page_info.raw_column_index
      dataWriteVal page_info.id page_info.offset v
  PyM.pure r4.base_rid

/-- `Table.update_base_record`. -/
def updateBaseRecord (base_rid : Int) (indirection : Int)
    (schema_encoding : List Bool) : PyM EngineState Bool := do
  let (_tps, base_pages_indx) ← getBaseRecordLocation base_rid
  let indirection_page_info ← PyM.pyGet base_pages_indx config.INDIRECTION_COLUMN
  let schema_encoding_page_info ← PyM.pyGet base_pages_indx config.SCHEMA_ENCODING_COLUMN
  dataWrite indirection_page_info.id indirection_page_info.offset indirection
  seWrite schema_encoding_page_info.id schema_encoding_page_info.offset schema_encoding
  PyM.pure true

/-- `Table.add_original_copy`: writes a schema-all-ones tail copy of the
base record and points the base's indirection at it, resetting the base
schema encoding to all zeros. -/
def addOriginalCopy (rec0 : Record) : PyM EngineState Unit := do
  if rec0.base_rid = 0 then PyM.pure () else do
    let s ← PyM.getS
    let schema_encoding := List.replicate s.num_columns true
    let (new_tid, page_indx) ← allocTailRid rec0.rid schema_encoding
    let r1 := rec0.setIndirection (some rec0.base_rid)
    -- `latest_cols` aliases the record's `raw_columns`
    let latest_cols := r1.raw_columns.set config.RID_COLUMN (.int new_tid)
    let latest_cols := latest_cols.set config.SCHEMA_ENCODING_COLUMN (.bits schema_encoding)
    PyM.forL page_indx fun page_info =>
      if page_info.raw_column_index = config.SCHEMA_ENCODING_COLUMN then
        seWrite page_info.id page_info.offset schema_encoding
      else do
        let v ← PyM.pyGet latest_cols page_info.raw_column_index
        dataWriteVal page_info.id page_info.offset v
    let _ ← updateBaseRecord r1.base_rid new_tid
      (List.replicate s.num_columns false)
    PyM.pure ()

/-- The schema-computation loop of `Table.add_tail_record`
(`for i in range(len(new_cols))`):

```
if new_cols[i] is not None or (new_cols[i] != latest_cols[i]
                               and rec.columns[i] != None):
    schema_encoding.append(1)
else:
    schema_encoding.append(0)
if (schema_encoding[i] or base_rec.schema_encoding[i]) and new_cols[i] is None:
    new_cols[i] = latest_cols[i]
```

Evaluation order matters: when `new_cols[i]` is not `None` the first
disjunct short-circuits and `latest_cols[i]` is not read; when it is
`None` the second conjunct is `False` (the parenthesised test is dead
code), but `latest_cols[i]` is read, and so is
`base_rec.schema_encoding[i]` in the inherit test. -/
def tailSchemaLoop : List PyVal → List PyVal → List Bool →
    Except Exc (List Bool × List PyVal)
  | [], _, _ => .ok ([], [])
  | nc :: ncs, lcs, bs =>
    if nc ≠ PyVal.none then
      match tailSchemaLoop ncs (lcs.drop 1) (bs.drop 1) with
      | .ok (bits, cols) => .ok (true :: bits, nc :: cols)
      | .error e => .error e
    else
      match lcs with
      | [] => .error .indexError
      | lc :: _ =>
        match bs with
        | [] => .error .indexError
        | b0 :: _ =>
          let nc' := if b0 then lc else PyVal.none
          match tailSchemaLoop ncs (lcs.drop 1) (bs.drop 1) with
          | .ok (bits, cols) => .ok (false :: bits, nc' :: cols)
          | .error e => .error e

/-- `bitarray.__or__` (operands of different length raise). -/
def bitOr (a b : List Bool) : Except Exc (List Bool) :=
  if a.length = b.length then .ok ((a.zip b).map fun p => p.1 || p.2)
  else .error .valueError

/-- Lift an `Except` value into `PyM`. -/
def liftE (e : Except Exc α) : PyM σ α :=
  match e with
  | .ok a => PyM.pure a
  | .error x => PyM.throw x

/-- `Table.__get_base_record`. -/
def getBaseRecord (rid : Int) : PyM EngineState (Option Record) := do
  let (_tps, base_pages_indx) ← getBaseRecordLocation rid
  let raw_cols ← mapL base_pages_indx fun page_info =>
    if page_info.raw_column_index = config.SCHEMA_ENCODING_COLUMN then do
      let b ← seRead page_info.id page_info.offset
      PyM.pure (PyVal.bits b)
    else do
      let v ← dataRead page_info.id page_info.offset
      PyM.pure (PyVal.int v)
  let s ← PyM.getS
  PyM.pure (some (Record.init s.key raw_cols))

/-- `Table.__get_tail_schema_encoding`. -/
def getTailSchemaEncoding (tid : Int) : PyM EngineState (List Bool) := do
  let page_indx ← getTailRecordLocation tid
  let schema_info ← PyM.pyGet page_indx config.SCHEMA_ENCODING_COLUMN
  seRead schema_info.id schema_info.offset

/-- `Table.__get_tail_timestamp` (the `try/except` around the read returns
`0` on failure; reads cannot fail in the store model). -/
def getTailTimestamp (tid : Int) : PyM EngineState Int := do
  let page_indx ← getTailRecordLocation tid
  let timestamp_info ← PyM.pyGet page_indx config.TIMESTAMP_COLUMN
  dataRead timestamp_info.id timestamp_info.offset

/-- `Table.__get_tail_indirection`. -/
def getTailIndirection (tid : Int) : PyM EngineState Int := do
  let page_indx ← getTailRecordLocation tid
  let indirection_info ← PyM.pyGet page_indx config.INDIRECTION_COLUMN
  dataRead indirection_info.id indirection_info.offset

/-- The `while` loop of `Table.get_record_version`:

```
while (version < 0 and latest_tid) or is_aborted_xact(latest_timestamp):
    if is_base_rec(latest_tid) or latest_tid >= tps[base_rid]:
        return base_rec
    latest_tid = __get_tail_indirection(latest_tid)
    latest_timestamp = __get_tail_timestamp(latest_tid)
    version += 1
```

A result of `none` is the `return base_rec` exit; `some tid` exits the
loop normally with the final `latest_tid`.  The loop is fuelled; fuel
exhaustion is `Outcome.div`, the Python loop failing to terminate.  (One
iteration visits one valid allocated tail RID and the state does not
change, so any Python run that terminates takes at most one iteration per
allocated tail RID; callers pass fuel exceeding that bound, making `div`
exactly Python divergence.) -/
def versionWalk : Nat → Int → Int → Int → Int → PyM EngineState (Option Int)
  | 0, _, _, _, _ => PyM.diverge
  | fuel + 1, base_rid, version, latest_tid, latest_timestamp => do
    let ab ← isAbortedXact latest_timestamp
    if (version < 0 ∧ latest_tid ≠ 0) ∨ ab = true then do
      let isb ← isBaseRec latest_tid
      if isb = true then PyM.pure Option.none
      else do
        let s ← PyM.getS
        let tps0 ← dictGet (s.dir.tps base_rid)
        if latest_tid ≥ tps0 then PyM.pure Option.none
        else do
          let tid' ← getTailIndirection latest_tid
          let ts' ← getTailTimestamp tid'
          versionWalk fuel base_rid (version + 1) tid' ts'
    else PyM.pure (some latest_tid)

/-- Walk fuel: one more than the number of allocated tail RIDs (plus
slack), enough for any terminating Python execution of the loop. -/
def walkFuel (s : EngineState) : Nat :=
  (config.TAIL_RID_BEGIN - s.dir.unused_tail_rid).toNat + 2

/-- The reconstruction loop of `Table.get_record_version`
(`for col in range(self.num_columns): if cols_needed[col]: ... pop()`). -/
def reconstructLoop : List Nat → List Bool → List PageLocation → List PyVal →
    PyM EngineState (List PyVal)
  | [], _, _, latest_cols => PyM.pure latest_cols
  | col :: cols, cols_needed, locs, latest_cols => do
    let b ← PyM.pyGet cols_needed col
    if b then do
      let page_info ←
        match locs.getLast? with
        | some p => PyM.pure p
        | Option.none => PyM.throw .indexError
      let v ← dataRead page_info.id page_info.offset
      let latest_cols ← pySet latest_cols page_info.raw_column_index (.int v)
      reconstructLoop cols cols_needed locs.dropLast latest_cols
    else
      reconstructLoop cols cols_needed locs latest_cols

/-- The base-column fill loop of `Table.get_record_version`
(`for i in range(self.num_columns): if cols_needed[i] == 0: ...`). -/
def fillBaseColsLoop : List Nat → List Bool → List PyVal → List PyVal →
    PyM EngineState (List PyVal)
  | [], _, _, latest_cols => PyM.pure latest_cols
  | i :: is, cols_needed, base_cols, latest_cols => do
    let b ← PyM.pyGet cols_needed i
    if b = false then do
      let v ← PyM.pyGet base_cols i
      let latest_cols ← pySet latest_cols (i + config.NUM_META_COLS) v
      fillBaseColsLoop is cols_needed base_cols latest_cols
    else
      fillBaseColsLoop is cols_needed base_cols latest_cols

/-- `Table.get_record_version` (result `none` is the `False` return). -/
def getRecordVersion (base_rid : Int) (version : Int) :
    PyM EngineState (Option Record) := do
  if version > 0 then PyM.throw .valueError else do
  let base_rec_opt ← getBaseRecord base_rid
  match base_rec_opt with
  | Option.none => PyM.pure Option.none
  | some base_rec => do
    let base_rec := base_rec.setBaseRid base_rid
    match base_rec.indirection with
    | Option.none => PyM.pure (some base_rec)
    | some latest_tid => do
      if latest_tid = base_rec.rid then PyM.pure (some base_rec) else do
      let s ← PyM.getS
      let tps0 ← dictGet (s.dir.tps base_rid)
      if latest_tid ≥ tps0 then PyM.pure (some base_rec) else do
      let latest_encoding ← getTailSchemaEncoding latest_tid
      if latest_encoding.length = 0 then PyM.throw .runtimeError else do
      if latest_encoding.count false = latest_encoding.length then do
        let s ← PyM.getS
        let result := Record.init s.key (List.replicate s.num_raw_cols PyVal.none)
        let result := result.setBaseRid base_rid
        let result := result.setIsDeleted true
        PyM.pure (some result)
      else do
        let latest_timestamp ← getTailTimestamp latest_tid
        let s ← PyM.getS
        let exit ← versionWalk (walkFuel s) base_rid version latest_tid latest_timestamp
        match exit with
        | Option.none => PyM.pure (some base_rec)
        | some latest_tid => do
          if latest_tid = 0 ∨ latest_tid = base_rid then PyM.pure (some base_rec)
          else do
            let s ← PyM.getS
            let rec0 := Record.init s.key []
            let rec0 := rec0.setRid latest_tid
            let rec0 := rec0.setBaseRid base_rid
            let latest_cols : List PyVal := List.replicate s.num_raw_cols (.int 0)
            let cols_needed := base_rec.schema_encoding
            let tail_locs ← getTailRecordLocation latest_tid
            let updated_column_locations := tail_locs.drop config.NUM_META_COLS
            let latest_cols ← reconstructLoop (List.range s.num_columns) cols_needed
              updated_column_locations latest_cols
            let base_cols := base_rec.columns
            let latest_cols ← fillBaseColsLoop (List.range s.num_columns) cols_needed
              base_cols latest_cols
            let rec1 := { rec0 with raw_columns := latest_cols }
            let rec1 := rec1.setIndirection base_rec.indirection
            let rec1 := rec1.setBaseRid base_rid
            let rec1 := rec1.setSchema base_rec.schema_encoding
            PyM.pure (some rec1)

/-- `Table.get_latest_record`. -/
def getLatestRecord (base_rid : Int) : PyM EngineState (Option Record) :=
  getRecordVersion base_rid 0

/-- `Table.add_tail_record` (result `none` is the `False` return). -/
def addTailRecord (rec0 : Record) : PyM EngineState (Option Int) := do
  if rec0.base_rid = 0 then PyM.pure Option.none else do
  let latest_rec_opt ← getLatestRecord rec0.base_rid
  let latest_rec ←
    match latest_rec_opt with
    | some r => PyM.pure r
    | Option.none => PyM.throw .runtimeError
  let base_rec_opt ← getBaseRecord rec0.base_rid
  let _base_rec ←
    match base_rec_opt with
    | some r => PyM.pure r
    | Option.none => PyM.throw .runtimeError
  let latest_rec ←
    if latest_rec.rid = rec0.base_rid then do
      addOriginalCopy _base_rec
      let lr ← getLatestRecord rec0.base_rid
      match lr with
      | some r => PyM.pure r
      | Option.none => PyM.throw .runtimeError
    else PyM.pure latest_rec
  let base_rec_opt ← getBaseRecord rec0.base_rid
  let base_rec ←
    match base_rec_opt with
    | some r => PyM.pure r
    | Option.none => PyM.throw .runtimeError
  let latest_cols := latest_rec.columns
  let r1 := rec0.setIndirection (some latest_rec.rid)
  let (schema_encoding, new_cols) ←
    liftE (tailSchemaLoop r1.columns latest_cols base_rec.schema_encoding)
  let cumulative_schema ← liftE (bitOr schema_encoding base_rec.schema_encoding)
  let (new_tid, page_indx) ← allocTailRid base_rec.rid cumulative_schema
  let r2 := r1.setRid new_tid
  let r3 := r2.setColumns new_cols
  let r4 := r3.setIndirection (some latest_rec.rid)
  let r5 := r4.setSchema cumulative_schema
  let new_raw_cols := r5.raw_columns
  PyM.forL page_indx fun page_info =>
    if page_info.raw_column_index = config.SCHEMA_ENCODING_COLUMN then
      seWrite page_info.id page_info.offset cumulative_schema
    else do
      let v ← PyM.pyGet new_raw_cols page_info.raw_column_index
      dataWriteVal page_info.id page_info.offset v
  let _ ← updateBaseRecord r5.base_rid new_tid cumulative_schema
  PyM.pure (some r5.rid)

/-- `PageDirectory.base_rids`. -/
def baseRids (s : EngineState) : List Int :=
  (List.range (s.dir.unused_base_rid - config.BASE_RID_BEGIN).toNat).map
    fun i => config.BASE_RID_BEGIN + (i : Int)

/-- `Table.records(version)` (the generator, materialised eagerly; all the
consumers in the query layer iterate it to the end). -/
def recordsGen (version : Int) : PyM EngineState (List Record) := do
  let s ← PyM.getS
  let rids := baseRids s
  let recs ← mapL rids fun base_rid => getRecordVersion base_rid version
  PyM.pure <| (recs.filterMap id).filter fun rec =>
    ¬ rec.is_deleted ∧ rec.base_rid ≠ 0

/-! ## `lstore/wal.py`

Binary little-endian log.  Bytes are naturals `< 256`; table names are
lists of Unicode code points, encoded to UTF-8 by `str.encode` and decoded
strictly by `bytes.decode`. -/

/-- `int.to_bytes(numBytes, "little", ...)` digit expansion (the range
check lives in the serialiser wrappers). -/
def natToLE : Nat → Nat → List Nat
  | 0, _ => []
  | n + 1, v => v % 256 :: natToLE n (v / 256)

/-- `int.from_bytes(b, "little", signed=False)`. -/
def natFromLE : List Nat → Nat
  | [] => 0
  | b :: bs => b + 256 * natFromLE bs

/-- `int.from_bytes(b, "little", signed=True)` (the sign bit is taken from
however many bytes were actually read). -/
def leSigned (chunk : List Nat) : Int :=
  if chunk.length = 0 then 0
  else
    let u := natFromLE chunk
    if u < 2 ^ (8 * chunk.length - 1) then (u : Int)
    else (u : Int) - 2 ^ (8 * chunk.length)

/-- `TransactionSerializer.__serialize_int(value, num_bytes, signed=True)`:
`int.to_bytes` raises `OverflowError` when the value does not fit. -/
def serializeInt (v : Int) (numBytes : Nat) : Except Exc (List Nat) :=
  if -(2 ^ (8 * numBytes - 1)) ≤ v ∧ v < 2 ^ (8 * numBytes - 1) then
    .ok (natToLE numBytes (v % (2 ^ (8 * numBytes))).toNat)
  else .error .overflowError

/-- `TransactionSerializer.__serialize_uint`. -/
def serializeUint (v : Int) (numBytes : Nat) : Except Exc (List Nat) :=
  if 0 ≤ v ∧ v < 2 ^ (8 * numBytes) then
    .ok (natToLE numBytes v.toNat)
  else .error .overflowError

/-- `str.encode("utf-8")` for one code point (surrogates and out-of-range
code points raise). -/
def utf8EncodeChar (c : Nat) : Except Exc (List Nat) :=
  if c < 0x80 then .ok [c]
  else if c < 0x800 then .ok [0xC0 + c / 64, 0x80 + c % 64]
  else if c < 0x10000 then
    if 0xD800 ≤ c ∧ c ≤ 0xDFFF then .error .unicodeEncodeError
    else .ok [0xE0 + c / 4096, 0x80 + c / 64 % 64, 0x80 + c % 64]
  else if c < 0x110000 then
    .ok [0xF0 + c / 262144, 0x80 + c / 4096 % 64, 0x80 + c / 64 % 64, 0x80 + c % 64]
  else .error .unicodeEncodeError

/-- `str.encode("utf-8")`. -/
def utf8Encode : List Nat → Except Exc (List Nat)
  | [] => .ok []
  | c :: cs => do
    let b ← utf8EncodeChar c
    let bs ← utf8Encode cs
    .ok (b ++ bs)

/-- `bitarray(endian="little").tobytes()`: bits are packed LSB-first and
the final byte is zero-padded. -/
def byteVal : List Bool → Nat
  | [] => 0
  | b :: bs => (if b then 1 else 0) + 2 * byteVal bs

def bitsToBytes : List Bool → List Nat
  | [] => []
  | b :: bs => byteVal (List.take 8 (b :: bs)) :: bitsToBytes (bs.drop 7)
  termination_by l => l.length
  decreasing_by simp [List.length_drop]; omega

/-- `bitarray.frombytes` with `endian="little"`: each byte expands to 8
bits, LSB first. -/
def byteBits (b : Nat) : List Bool :=
  (List.range 8).map fun i => b / 2 ^ i % 2 = 1

def bytesToBits (bs : List Nat) : List Bool := bs.flatMap byteBits

/-- Stored queries of a `Transaction` (`(callable, table_name, args)`; the
query type is the `query_type` attribute of the callable). -/
inductive WalArgs where
  | insertA (cols : List Int)
  | updateA (key : Int) (cols : List (Option Int))
  | incrementA (key : Int) (inc_column : Int)
  | deleteA (key : Int)
  /-- A recorded SELECT / SUM query (readonly; skipped by the serializer). -/
  | readonlyA
  deriving DecidableEq, Repr

structure StoredQuery where
  table : List Nat
  args : WalArgs
  deriving DecidableEq, Repr

/-- `Transaction` as the WAL sees it. -/
structure Xact where
  start_time : Int
  queries : List StoredQuery
  deriving DecidableEq, Repr

/-- `TransactionSerializer.__serialize_str`. -/
def serializeStr (sName : List Nat) : Except Exc (List Nat) := do
  if sName.length > config.MAX_TABLE_NAME_LEN then .error .valueError
  else do
    let lenB ← serializeUint sName.length config.MAX_TABLE_SIZE_INT
    let enc ← utf8Encode sName
    .ok (lenB ++ enc)

/-- `TransactionSerializer._serialize_insert`. -/
def serializeInsert (cols : List Int) : Except Exc (List Nat) := do
  let lenB ← serializeUint cols.length config.COL_ENCODING
  let colBs ← cols.mapM fun c => serializeInt c config.DATA_SIZE
  .ok (lenB ++ colBs.flatten)

/-- `TransactionSerializer._serialize_update`. -/
def serializeUpdate (key : Int) (cols : List (Option Int)) :
    Except Exc (List Nat) := do
  let keyB ← serializeInt key config.DATA_SIZE
  let lenB ← serializeUint cols.length config.COL_ENCODING
  let mask := bitsToBytes (cols.map Option.isSome)
  let valBs ← (cols.filterMap id).mapM fun c => serializeInt c config.DATA_SIZE
  .ok (keyB ++ lenB ++ mask ++ valBs.flatten)

/-- `TransactionSerializer._serialize_increment`. -/
def serializeIncrement (key : Int) (inc_column : Int) : Except Exc (List Nat) := do
  let keyB ← serializeInt key config.DATA_SIZE
  let colB ← serializeUint inc_column config.COL_ENCODING
  .ok (keyB ++ colB)

/-- `TransactionSerializer._serialize_query` (readonly queries are skipped
entirely — note the transaction header's query count still includes
them). -/
def serializeQuery (q : StoredQuery) : Except Exc (List Nat) := do
  match q.args with
  | .readonlyA => .ok []
  | .insertA cols => do
    let nameB ← serializeStr q.table
    let body ← serializeInsert cols
    .ok (1 :: nameB ++ body)
  | .updateA key cols => do
    let nameB ← serializeStr q.table
    let body ← serializeUpdate key cols
    .ok (2 :: nameB ++ body)
  | .incrementA key col => do
    let nameB ← serializeStr q.table
    let body ← serializeIncrement key col
    .ok (3 :: nameB ++ body)
  | .deleteA key => do
    let nameB ← serializeStr q.table
    let body ← serializeInt key config.DATA_SIZE
    .ok (4 :: nameB ++ body)

/-- `TransactionSerializer.serialize`. -/
def serializeXact (x : Xact) : Except Exc (List Nat) := do
  let stB ← serializeUint x.start_time config.DATA_SIZE
  let nB ← serializeUint x.queries.length config.N_QUERY_ENCODING
  let qBs ← x.queries.mapM serializeQuery
  .ok (stB ++ nB ++ qBs.flatten)

/-! ### `WriteAheadLogParser` -/

/-- `RedoQuery` (the parsed form; the table name is carried per query). -/
inductive RedoQuery where
  | insertR (table : List Nat) (cols : List Int)
  | updateR (table : List Nat) (key : Int) (cols : List (Option Int))
  | incrementR (table : List Nat) (key : Int) (inc_column : Nat)
  | deleteR (table : List Nat) (key : Int)
  deriving DecidableEq, Repr

/-- `RedoTransaction`. -/
structure RedoXact where
  start_time : Nat
  queries : List RedoQuery
  deriving DecidableEq, Repr

/-- `__parse_uint`: `f.read` returns at most the requested bytes, and
`int.from_bytes` accepts a short (even empty) read. -/
def parseUintP (numBytes : Nat) (bs : List Nat) : Nat × List Nat :=
  (natFromLE (bs.take numBytes), bs.drop numBytes)

/-- `__parse_int` (signed). -/
def parseIntP (numBytes : Nat) (bs : List Nat) : Int × List Nat :=
  (leSigned (bs.take numBytes), bs.drop numBytes)

/-- Strict UTF-8 decoding of one sequence, as `bytes.decode("utf-8")` handles
the sequence starting at byte `b`: rejects truncated sequences, stray
continuation bytes, overlong forms, surrogates and code points above
`0x10FFFF`.  Returns the code point and the bytes left after the sequence. -/
def utf8DecodeStep (b : Nat) (bs : List Nat) : Except Exc (Nat × List Nat) :=
  if b < 0x80 then .ok (b, bs)
  else if 0xC2 ≤ b ∧ b ≤ 0xDF then
    match bs with
    | c1 :: bs' =>
      if 0x80 ≤ c1 ∧ c1 ≤ 0xBF then
        .ok ((b - 0xC0) * 64 + (c1 - 0x80), bs')
      else .error .unicodeDecodeError
    | [] => .error .unicodeDecodeError
  else if 0xE0 ≤ b ∧ b ≤ 0xEF then
    match bs with
    | c1 :: c2 :: bs' =>
      let lo1 := if b = 0xE0 then 0xA0 else 0x80
      let hi1 := if b = 0xED then 0x9F else 0xBF
      if (lo1 ≤ c1 ∧ c1 ≤ hi1) ∧ (0x80 ≤ c2 ∧ c2 ≤ 0xBF) then
        .ok ((b - 0xE0) * 4096 + (c1 - 0x80) * 64 + (c2 - 0x80), bs')
      else .error .unicodeDecodeError
    | _ => .error .unicodeDecodeError
  else if 0xF0 ≤ b ∧ b ≤ 0xF4 then
    match bs with
    | c1 :: c2 :: c3 :: bs' =>
      let lo1 := if b = 0xF0 then 0x90 else 0x80
      let hi1 := if b = 0xF4 then 0x8F else 0xBF
      if (lo1 ≤ c1 ∧ c1 ≤ hi1) ∧ (0x80 ≤ c2 ∧ c2 ≤ 0xBF) ∧
          (0x80 ≤ c3 ∧ c3 ≤ 0xBF) then
        .ok ((b - 0xF0) * 262144 + (c1 - 0x80) * 4096 + (c2 - 0x80) * 64 +
          (c3 - 0x80), bs')
      else .error .unicodeDecodeError
    | _ => .error .unicodeDecodeError
  else .error .unicodeDecodeError

/-- Decoding loop.  Each step consumes at least the leading byte, so the
fuel `bs.length` given by `utf8Decode` suffices and the fuel-exhaustion
branch is unreachable. -/
def utf8DecodeLoop : Nat → List Nat → Except Exc (List Nat)
  | _, [] => .ok []
  | 0, _ :: _ => .error .unicodeDecodeError
  | fuel + 1, b :: bs =>
    match utf8DecodeStep b bs with
    | .error e => .error e
    | .ok (c, rest) =>
      match utf8DecodeLoop fuel rest with
      | .ok cs => .ok (c :: cs)
      | .error e => .error e

/-- Strict UTF-8 decoding, as `bytes.decode("utf-8")`. -/
def utf8Decode (bs : List Nat) : Except Exc (List Nat) :=
  utf8DecodeLoop bs.length bs

/-- `__parse_str`. -/
def parseStrP (bs : List Nat) : Except Exc (List Nat × List Nat) := do
  let (n_chars, rest) := parseUintP config.MAX_TABLE_SIZE_INT bs
  let raw := rest.take n_chars
  let cs ← utf8Decode raw
  .ok (cs, rest.drop n_chars)

/-- `_parse_insert`. -/
def parseInsertCols : Nat → List Nat → List Int × List Nat
  | 0, bs => ([], bs)
  | n + 1, bs =>
    let (c, rest) := parseIntP config.DATA_SIZE bs
    let (cs, rest') := parseInsertCols n rest
    (c :: cs, rest')

/-- The per-flag value reads of `_parse_update`. -/
def parseUpdateVals : List Bool → List Nat → List (Option Int) × List Nat
  | [], bs => ([], bs)
  | flag :: flags, bs =>
    if flag then
      let (c, rest) := parseIntP config.DATA_SIZE bs
      let (cs, rest') := parseUpdateVals flags rest
      (some c :: cs, rest')
    else
      let (cs, rest') := parseUpdateVals flags bs
      (Option.none :: cs, rest')

/-- `_parse_query`. -/
def parseQueryP (bs : List Nat) : Except Exc (RedoQuery × List Nat) := do
  let (qt, rest) := parseUintP 1 bs
  if qt = 0 ∨ qt > 6 then .error .valueError      -- `QueryType(i)` fails
  else do
    let (table, rest) ← parseStrP rest
    if qt = 1 then
      let (num_cols, rest) := parseUintP config.COL_ENCODING rest
      let (cols, rest) := parseInsertCols num_cols rest
      .ok (.insertR table cols, rest)
    else if qt = 2 then
      let (key, rest) := parseIntP config.DATA_SIZE rest
      let (table_num_cols, rest) := parseUintP config.COL_ENCODING rest
      let bitarray_size := (table_num_cols + 7) / 8
      let ba := (bytesToBits (rest.take bitarray_size)).take table_num_cols
      let rest := rest.drop bitarray_size
      let (cols, rest) := parseUpdateVals ba rest
      .ok (.updateR table key cols, rest)
    else if qt = 3 then
      let (key, rest) := parseIntP config.DATA_SIZE rest
      let (inc_column, rest) := parseUintP config.COL_ENCODING rest
      .ok (.incrementR table key inc_column, rest)
    else if qt = 4 then
      let (key, rest) := parseIntP config.DATA_SIZE rest
      .ok (.deleteR table key, rest)
    else .error .runtimeError                     -- readonly `RedoQuery`

/-- The `for _ in range(num_queries)` loop of `_parse_xact`. -/
def parseQueriesP : Nat → List Nat → Except Exc (List RedoQuery × List Nat)
  | 0, bs => .ok ([], bs)
  | n + 1, bs => do
    let (q, rest) ← parseQueryP bs
    let (qs, rest') ← parseQueriesP n rest
    .ok (q :: qs, rest')

/-- `_parse_xact`. -/
def parseXactP (bs : List Nat) : Except Exc (RedoXact × List Nat) := do
  let (start_time, rest) := parseUintP config.DATA_SIZE bs
  let (num_queries, rest) := parseUintP config.N_QUERY_ENCODING rest
  let (qs, rest) ← parseQueriesP num_queries rest
  .ok (⟨start_time, qs⟩, rest)

/-- The `while self._f.tell() < self._fsize` loop of `parse`.  Each
iteration consumes at least one byte of a nonempty input, so the fuel
`bs.length + 1` never runs out; the exhaustion branch is unreachable. -/
def parseWalLoop : Nat → List Nat → Except Exc (List RedoXact)
  | 0, _ => .error .runtimeError
  | _ + 1, [] => .ok []
  | fuel + 1, b :: bs => do
    let (x, rest) ← parseXactP (b :: bs)
    let xs ← parseWalLoop fuel rest
    .ok (x :: xs)

/-- `WriteAheadLogParser.parse`. -/
def parseWal (bs : List Nat) : Except Exc (List RedoXact) :=
  parseWalLoop (bs.length + 1) bs

/-- The redo image of a stored mutating query, as `recover`'s parse is
expected to reproduce it. -/
def redoOfQuery (q : StoredQuery) : RedoQuery :=
  match q.args with
  | .insertA cols => .insertR q.table cols
  | .updateA key cols => .updateR q.table key cols
  | .incrementA key col => .incrementR q.table key col.toNat
  | .deleteA key => .deleteR q.table key
  | .readonlyA => .deleteR q.table 0   -- unused: readonly queries have no redo image

/-! ## `lstore/transaction.py` and `lstore/transaction_tracker.py`
(the fragments the implicit single-query transactions of the query layer
exercise) -/

/-- `TransactionTracker.mark_committed` (`False` = committed). -/
def markCommitted (timestamp : Int) : PyM EngineState Unit := do
  let s ← PyM.getS
  if (s.tracker timestamp).isSome then PyM.throw .valueError
  else PyM.modifyS fun s => { s with tracker := upd s.tracker timestamp (some false) }

/-- `Transaction.commit` for an implicit single-table transaction: mark
committed, resolve the affected RIDs, swallow any exception. -/
def xactCommit (start_time : Int) (affected_rids : List Int) :
    PyM EngineState Bool :=
  PyM.tryCatch
    (do
      markCommitted start_time
      notifyResolve affected_rids
      PyM.pure true)
    false

/-- `WriteAheadLog.log`: serialize and append (`fsync` is not visible in
the state model). -/
def walLog (x : Xact) : PyM EngineState Unit := do
  let bytes ← liftE (serializeXact x)
  PyM.modifyS fun s => { s with wal := s.wal ++ bytes }

/-! ## `lstore/query.py`

Each public query method wraps its implementation in
`try: ... except Exception: return False`.  The wall-clock timestamp
`time.time_ns()` read by the implicit-transaction paths is passed in as
the `time_now` oracle argument.  An enclosing transaction is modelled by
`xact : Option Int` carrying its start time; the RIDs the implementation
appends to the enclosing transaction's `affected_rids` are returned
alongside the result (the append is the final action before returning, so
no exception can intervene). -/

/-- `Index.locate`. -/
def indexLocate (column : Nat) (value : Int) : PyM EngineState (List Int) := do
  let s ← PyM.getS
  let ixOpt ← PyM.pyGet s.indices column
  match ixOpt with
  | Option.none => PyM.throw .runtimeError
  | some ix => PyM.pure (ix.locate value)

/-- Store back a mutated column index object. -/
def setIdx (column : Nat) (ix : RangedIdx) : PyM EngineState Unit :=
  PyM.modifyS fun s => { s with indices := s.indices.set column (some ix) }

/-- Python `==` between a raw record value and an int. -/
def pyValEqInt (v : PyVal) (i : Int) : Bool :=
  match v with
  | .int j => j = i
  | _ => false

/-- The record-collection loop of `Query.__select_impl`'s index path. -/
def selectByRids (base_rids : List Int) (proj : List Int) :
    PyM EngineState (List Record) :=
  match base_rids with
  | [] => PyM.pure []
  | base_rid :: rids => do
    let rec_opt ← getLatestRecord base_rid
    match rec_opt with
    | Option.none => selectByRids rids proj
    | some r => do
      let rest ← selectByRids rids proj
      PyM.pure (r.filter_columns proj :: rest)

/-- The linear-scan filter of `__select_impl` / `__select_version_impl`. -/
def scanFilter (recs : List Record) (search_key : Int) (search_key_index : Nat)
    (proj : List Int) : PyM EngineState (List Record) :=
  match recs with
  | [] => PyM.pure []
  | r :: rs => do
    let v ← PyM.pyGet r.columns search_key_index
    if pyValEqInt v search_key then do
      let rest ← scanFilter rs search_key search_key_index proj
      PyM.pure (r.filter_columns proj :: rest)
    else
      scanFilter rs search_key search_key_index proj

/-- `Query.__select_impl`. -/
def selectImpl (search_key : Int) (search_key_index : Nat)
    (projected_column_indices : List Int) : PyM EngineState (List Record) := do
  let s ← PyM.getS
  let ixOpt ← PyM.pyGet s.indices search_key_index
  match ixOpt with
  | Option.none => do
    let recs ← recordsGen 0
    scanFilter recs search_key search_key_index projected_column_indices
  | some _ => do
    let base_rids ← indexLocate search_key_index search_key
    selectByRids base_rids projected_column_indices

/-- `Query.select` (`none` is the distinguished `False` return). -/
def selectQ (search_key : Int) (search_key_index : Nat)
    (projected_column_indices : List Int) :
    PyM EngineState (Option (List Record)) :=
  PyM.tryCatch
    (PyM.bind (selectImpl search_key search_key_index projected_column_indices)
      fun l => PyM.pure (some l))
    Option.none

/-- `Query.__select_version_impl`. -/
def selectVersionImpl (search_key : Int) (search_key_index : Nat)
    (projected_column_indices : List Int) (relative_version : Int) :
    PyM EngineState (Option (List Record)) := do
  if relative_version = 0 then
    selectQ search_key search_key_index projected_column_indices
  else do
    let recs ← recordsGen relative_version
    let results ← scanFilter recs search_key search_key_index
      projected_column_indices
    PyM.pure (some results)

/-- `Query.select_version`. -/
def selectVersionQ (search_key : Int) (search_key_index : Nat)
    (projected_column_indices : List Int) (relative_version : Int) :
    PyM EngineState (Option (List Record)) :=
  PyM.tryCatch
    (selectVersionImpl search_key search_key_index projected_column_indices
      relative_version)
    Option.none

/-- The body of the index-maintenance loop of `Query.__insert_impl`
(`for i, value in enumerate(columns)`). -/
def insIndexBody (base_rid : Int) (p : Nat × Int) : PyM EngineState Unit := do
  let s ← PyM.getS
  let ixOpt ← PyM.pyGet s.indices p.1
  match ixOpt with
  | Option.none => PyM.pure ()
  | some ix => do
    let ix' ← liftE (ix.add p.2 base_rid)
    setIdx p.1 ix'

/-- `Query.__insert_impl`. -/
def insertImplX (columns : List Int) (time_now : Int) (xact : Option Int) :
    PyM EngineState (Bool × List Int) := do
  let s ← PyM.getS
  if columns.length ≠ s.num_columns then PyM.pure (false, []) else do
  let keyv ← PyM.pyGet columns s.key
  let key_lookup ← indexLocate s.key keyv
  if key_lookup.length > 0 then PyM.pure (false, []) else do
  let base_rec := Record.init s.key
    (List.replicate (s.num_columns + config.NUM_META_COLS) (.int 0))
  let base_rec := base_rec.setSchema (List.replicate s.num_columns false)
  let ts := match xact with | some t => t | Option.none => time_now
  let base_rec := base_rec.setTimestamp ts
  let base_rec := base_rec.setColumns (columns.map PyVal.int)
  let base_rid ← addBaseRecord base_rec
  let s ← PyM.getS
  let key_index ← PyM.pyGet s.indices s.key
  if key_index.isNone then PyM.throw .runtimeError else do
  PyM.forL columns.enum (insIndexBody base_rid)
  match xact with
  | Option.none => do
    let _ ← xactCommit ts [base_rid]
    walLog ⟨ts, [⟨s.name, .insertA columns⟩]⟩
    PyM.pure (true, [])
  | some _ => PyM.pure (true, [base_rid])

/-- `Query.insert`. -/
def insertQ (columns : List Int) (time_now : Int) : PyM EngineState Bool :=
  PyM.tryCatch
    (PyM.bind (insertImplX columns time_now Option.none) fun r => PyM.pure r.1)
    false

/-- The index-maintenance loop of `Query.__update_impl`. -/
def updateIndexLoop (pairs : List (Nat × (PyVal × Option Int))) (base_rid : Int) :
    PyM EngineState Unit :=
  match pairs with
  | [] => PyM.pure ()
  | (col, (original_value, new_value)) :: rest => do
    let s ← PyM.getS
    let ixOpt ← PyM.pyGet s.indices col
    (match ixOpt with
     | Option.none => PyM.pure ()
     | some ix =>
       match new_value with
       | Option.none => PyM.pure ()
       | some nv =>
         if pyValEqInt original_value nv then PyM.pure ()
         else do
           -- `index.remove(original_value, base_rid)`: a non-int original
           -- value misses the hash lookup and the remove is a no-op
           let ix' ←
             match original_value with
             | .int ov => liftE (ix.remove ov (some base_rid))
             | _ => PyM.pure ix
           setIdx col ix'
           let ix'' ← liftE (ix'.add nv base_rid)
           setIdx col ix'')
    updateIndexLoop rest base_rid

/-- `Query.__update_impl`. -/
def updateImplX (primary_key : Int) (columns : List (Option Int))
    (time_now : Int) (xact : Option Int) : PyM EngineState (Bool × List Int) := do
  let s ← PyM.getS
  let key_lookup ← indexLocate s.key primary_key
  if key_lookup.length ≠ 1 then PyM.pure (false, []) else do
  let base_rid ← PyM.pyGet key_lookup 0
  if columns.all Option.isNone then PyM.pure (true, []) else do
  let original_opt ← selectQ primary_key s.key (List.replicate s.num_columns 1)
  let original_list ←
    match original_opt with
    | Option.none => PyM.throw .assertionError
    | some l => PyM.pure l
  let original_rec ← PyM.pyGet original_list 0
  let update_rec := Record.init s.key
    (List.replicate (s.num_columns + config.NUM_META_COLS) (.int 0))
  let update_rec := update_rec.setBaseRid base_rid
  if columns.length ≠ s.num_columns then PyM.pure (false, []) else do
  let update_rec := update_rec.setColumns (columns.map fun o =>
    match o with | some i => PyVal.int i | Option.none => PyVal.none)
  let ts := match xact with | some t => t | Option.none => time_now
  let update_rec := update_rec.setTimestamp ts
  let tail_rid_opt ← addTailRecord update_rec
  match tail_rid_opt with
  | Option.none => PyM.pure (false, [])
  | some tail_rid => do
    updateIndexLoop (original_rec.columns.zip columns).enum base_rid
    match xact with
    | Option.none => do
      let _ ← xactCommit ts [tail_rid]
      walLog ⟨ts, [⟨s.name, .updateA primary_key columns⟩]⟩
      PyM.pure (true, [])
    | some _ => PyM.pure (true, [tail_rid])

/-- `Query.update`. -/
def updateQ (primary_key : Int) (columns : List (Option Int)) (time_now : Int) :
    PyM EngineState Bool :=
  PyM.tryCatch
    (PyM.bind (updateImplX primary_key columns time_now Option.none)
      fun r => PyM.pure r.1)
    false

structure BufState where
  frames : List (PageId × List Nat)
  dirty : List PageId
  pins : PageId → Nat
  disk : PageId → Option (List Nat)

def framesLookup (frames : List (PageId × List Nat)) (pid : PageId) :
    Option (List Nat) :=
  (frames.find? (fun p => p.1 = pid)).map (·.2)

/-- `Bufferpool.evict_page`. -/
def evictPage (page_id : PageId) : PyM BufState Unit := do
  let s ← PyM.getS
  if s.pins page_id ≠ 0 then PyM.throw .valueError
  else do
    if page_id ∈ s.dirty then do
      -- `write_page(self._db_path, page_id, self._frames[page_id]._data)`
      let buf ← dictGet (framesLookup s.frames page_id)
      PyM.modifyS fun s => { s with disk := upd s.disk page_id (some buf) }
    PyM.modifyS fun s =>
      { s with
        frames := s.frames.filter (fun p => ¬ p.1 = page_id)
        pins := upd s.pins page_id 0 }

/-- `Bufferpool._evict_lru`.  `self._cond.wait_for(pred, timeout)` returns
immediately when the LRU page is unpinned; otherwise no other thread runs
in the sequential embedding, the 10-second timeout elapses, and the
eviction fails fatally (`RuntimeError`). -/
def evictLru : PyM BufState Unit := do
  let s ← PyM.getS
  match s.frames with
  | [] => PyM.throw .runtimeError
  | (lru_page_id, _) :: _ =>
    if s.pins lru_page_id ≠ 0 then PyM.throw .runtimeError
    else evictPage lru_page_id

/-! ## Initial states (`db.create_table` / `Table.__init__`) -/

/-- Freshly created column files are zero filled. -/
def zeroPages : PageStore :=
  ⟨fun _ _ => 0, fun _ _ => []⟩

/-- A fresh `PageDirectory`. -/
def freshDir : Dir :=
  { unused_tp_idx := 0
    unused_bp_idx := 0
    merge_queue := []
    range_last_bp := fun _ => Option.none
    con_bp_last_con_tp := fun _ => Option.none
    con_tp_owner := fun _ => Option.none
    con_bp_num_resolved := fun _ => 0
    con_tp_num_resolved := fun _ => 0
    offsets := fun _ => Option.none
    unused_base_rid := config.BASE_RID_BEGIN
    unused_tail_rid := config.TAIL_RID_BEGIN
    num_records := fun _ => 0
    con_bp_num_records := fun _ => 0
    con_tp_num_records := fun _ => 0
    tps := fun _ => Option.none }

/-- A freshly created table with `K` data columns and key column `key`:
a unique index on the key column, no secondary indexes, empty WAL and
tracker (`Index.__init__` with empty `unique_cols` / `ranged_cols`). -/
def freshTable (name : List Nat) (K : Nat) (key : Nat) : EngineState :=
  { name := name
    num_columns := K
    key := key
    dir := freshDir
    store := zeroPages
    indices := (List.range K).map fun i =>
      if i = key then some ⟨true, []⟩ else Option.none
    tracker := fun _ => Option.none
    wal := [] }

/-! ## Concrete states and spec-side definitions used by the claims -/

/-- The schema-encoding bit of claim C2, following the spec's words: "bit
*i* = 1 iff the new value at column *i* is present (non-null) and
different from the latest value". -/
def specSchemaBit (newVal : PyVal) (latestVal : PyVal) : Bool :=
  match newVal with
  | .int v => ¬ (latestVal = .int v)
  | _ => false

/-- A table whose conceptual-page capacity is 2 records
(`num_columns = 16384`, so a schema-encoding page holds
`4096 / 2048 = 2` bitmaps): two base records (RIDs 1000, 1001) fill
conceptual base page 0, and two tail records (RIDs 7000000, 7000001)
fill conceptual tail page 0, owned by base page 0.  Only the first page
location of each record is consulted by `__mark_resolved`. -/
def resolveState : EngineState :=
  { name := []
    num_columns := 16384
    key := 0
    dir :=
      { freshDir with
        unused_base_rid := 1002
        unused_tail_rid := 6999999
        con_tp_owner := fun tp => if tp = 0 then some 0 else Option.none
        con_bp_num_records := fun bp => if bp = 0 then 2 else 0
        con_tp_num_records := fun tp => if tp = 0 then 2 else 0
        offsets := fun r =>
          if r = 1000 ∨ r = 1001 then some [⟨[], 0, true, 0, (r - 1000).toNat⟩]
          else if r = 7000000 ∨ r = 7000001 then
            some [⟨[], 0, false, 0, (r - 7000000).toNat⟩]
          else Option.none }
    store := zeroPages
    indices := []
    tracker := fun _ => Option.none
    wal := [] }

/-- The conceptual tail page of `resolveState`. -/
def resolveTailPage : PageId := ⟨[], 0, false, 0⟩

/-- Claim C6's counterexample transaction: one DELETE on a table whose
one-character name `é` (code point 233) has a two-byte UTF-8 encoding. -/
def cexXact : Xact := ⟨5, [⟨[233], .deleteA 42⟩]⟩

/-- `resolveState` after resolving both base records and the first tail
record (used to exhibit an append on the final tail resolution). -/
def resolveState3 : EngineState :=
  (notifyResolve [1000, 1001, 7000000] resolveState).1

/-- Bufferpool pages for the eviction examples. -/
def bufPage0 : PageId := ⟨[], 0, true, 0⟩

def bufPage1 : PageId := ⟨[], 1, true, 0⟩

/-- A bufferpool with an unpinned dirty frame (`bufPage0`) and a pinned
frame (`bufPage1`); nothing on disk yet. -/
def bufWitState : BufState :=
  { frames := [(bufPage0, [1, 2]), (bufPage1, [3])]
    dirty := [bufPage0]
    pins := fun p => if p = bufPage1 then 1 else 0
    disk := fun _ => Option.none }

/-- A one-column table whose directory has allocated one base RID. -/
def oneRowDirState : EngineState :=
  { freshTable [71] 1 0 with dir := { freshDir with unused_base_rid := 1001 } }

/-- A two-column table whose key index contains key value 7 for base RID
1000. -/
def dupKeyState : EngineState :=
  { freshTable [71] 2 0 with
      indices := [some ⟨true, [(7, [1000])]⟩, Option.none] }

/-- Little-endian bit expansion helper used to reason about `byteBits`. -/
def bitsOf (n v : Nat) : List Bool :=
  (List.range n).map fun i => v / 2 ^ i % 2 = 1

/-- A concrete all-mutating, ASCII-named transaction and its log image. -/
def walWitXact : Xact :=
  ⟨7, [⟨[97, 98], .updateA 5 [some 3, Option.none, some (-2)]⟩,
       ⟨[97], .insertA [1, 2]⟩,
       ⟨[122], .incrementA 4 1⟩,
       ⟨[], .deleteA (-9)⟩]⟩

def walWitBytes : List Nat :=
  match serializeXact walWitXact with
  | .ok bs => bs
  | .error _ => []

def cexWalBytes : List Nat :=
  [5, 0, 0, 0, 0, 0, 0, 0, 1, 0, 0, 0, 0, 0, 0, 0, 4, 1, 0, 195, 169,
   42, 0, 0, 0, 0, 0, 0, 0]

/-- A computation that, run from `s`, leaves the state unchanged and does
not diverge (it returns a value or raises). -/
def ReadTotal (m : PyM EngineState α) (s : EngineState) : Prop :=
  (m s).1 = s ∧ (m s).2 ≠ Outcome.div

/-- The fields of the engine state that `Transaction.commit` (mark
committed + resolve) never touches: everything except the tracker, the
resolved counters, `con_tp_owner` bookkeeping and the merge queue. -/
def CommitFrame (s' s : EngineState) : Prop :=
  s'.name = s.name ∧ s'.num_columns = s.num_columns ∧ s'.key = s.key ∧
  s'.store = s.store ∧ s'.indices = s.indices ∧ s'.wal = s.wal ∧
  s'.dir.offsets = s.dir.offsets ∧ s'.dir.tps = s.dir.tps ∧
  s'.dir.num_records = s.dir.num_records ∧
  s'.dir.unused_base_rid = s.dir.unused_base_rid ∧
  s'.dir.unused_tail_rid = s.dir.unused_tail_rid
/-- `m` started at `s` never diverges and preserves the commit frame. -/
def CF (m : PyM EngineState α) (s : EngineState) : Prop :=
  CommitFrame (m s).1 s ∧ (m s).2 ≠ Outcome.div
theorem PyM.bind_eq (m : PyM σ α) (f : α → PyM σ β) : m >>= f = PyM.bind m f := rfl

theorem PyM.pure_eq (a : α) : (Pure.pure a : PyM σ α) = PyM.pure a := rfl

@[simp] theorem PyM.pure_apply (a : α) (s : σ) : PyM.pure a s = (s, Outcome.ok a) := rfl

@[simp] theorem PyM.throw_apply (e : Exc) (s : σ) :
    (PyM.throw e : PyM σ α) s = (s, Outcome.exc e) := rfl

@[simp] theorem PyM.getS_apply (s : σ) : (PyM.getS : PyM σ σ) s = (s, Outcome.ok s) := rfl

@[simp] theorem PyM.modifyS_apply (f : σ → σ) (s : σ) :
    PyM.modifyS f s = (f s, Outcome.ok ()) := rfl

@[simp] theorem PyM.diverge_apply (s : σ) : (PyM.diverge : PyM σ α) s = (s, Outcome.div) := rfl

theorem PyM.bind_apply_ok {m : PyM σ α} {s s' : σ} {a : α} (f : α → PyM σ β)
    (h : m s = (s', Outcome.ok a)) : PyM.bind m f s = f a s' := by
  unfold PyM.bind; rw [h]

theorem PyM.bind_apply_exc {m : PyM σ α} {s s' : σ} {e : Exc} (f : α → PyM σ β)
    (h : m s = (s', Outcome.exc e)) : PyM.bind m f s = (s', Outcome.exc e) := by
  unfold PyM.bind; rw [h]

theorem PyM.bind_apply_div {m : PyM σ α} {s s' : σ} (f : α → PyM σ β)
    (h : m s = (s', Outcome.div)) : PyM.bind m f s = (s', Outcome.div) := by
  unfold PyM.bind; rw [h]

theorem PyM.tryCatch_apply_ok {m : PyM σ α} {s s' : σ} {a : α} (d : α)
    (h : m s = (s', Outcome.ok a)) : PyM.tryCatch m d s = (s', Outcome.ok a) := by
  unfold PyM.tryCatch; rw [h]

theorem PyM.tryCatch_apply_exc {m : PyM σ α} {s s' : σ} {e : Exc} (d : α)
    (h : m s = (s', Outcome.exc e)) : PyM.tryCatch m d s = (s', Outcome.ok d) := by
  unfold PyM.tryCatch; rw [h]

theorem PyM.tryCatch_apply_div {m : PyM σ α} {s s' : σ} (d : α)
    (h : m s = (s', Outcome.div)) : PyM.tryCatch m d s = (s', Outcome.div) := by
  unfold PyM.tryCatch; rw [h]

theorem pyGet_eq_some {l : List α} {i : Nat} {a : α} (h : l.get? i = some a) :
    (PyM.pyGet l i : PyM σ α) = PyM.pure a := by
  unfold PyM.pyGet; rw [h]

theorem pyGet_eq_none {l : List α} {i : Nat} (h : l.get? i = Option.none) :
    (PyM.pyGet l i : PyM σ α) = PyM.throw .indexError := by
  unfold PyM.pyGet; rw [h]

theorem dictGet_eq_some {v : Option α} {a : α} (h : v = some a) :
    (dictGet v : PyM σ α) = PyM.pure a := by
  subst h; rfl

theorem dictGet_eq_none {v : Option α} (h : v = Option.none) :
    (dictGet v : PyM σ α) = PyM.throw .keyError := by
  subst h; rfl

/-- `Index.locate` on a column that has an index: a pure read. -/
theorem indexLocate_ok {s : EngineState} {col : Nat} {ix : RangedIdx}
    (hix : s.indices.get? col = some (some ix)) (value : Int) :
    indexLocate col value s = (s, Outcome.ok (ix.locate value)) := by
  unfold indexLocate
  rw [PyM.bind_eq, PyM.bind_apply_ok _ (PyM.getS_apply s),
    PyM.bind_eq, PyM.bind_apply_ok _ (congrFun (pyGet_eq_some hix) s)]
  rfl

/-! ## C3: page-directory persistence -/

/-- C3: the claimed save/load round-trip fails on the code.  `load` reads
`values.txt` line 2 into both `_unused_base_rid` and `_unused_tail_rid`
(`lines[3]` is never read), so for a fresh table — whose four saved
counters are `0, 0, 1000, 2^63 − 1` — reloading the directory sets
`_unused_tail_rid` to `1000` instead of `2^63 − 1`, while the claim says
all four counters are restored.  The maps, by contrast, are restored
exactly. -/
theorem pagedir_load_misreads_tail_rid :
    (dirSave (freshTable [] 1 0)).values_lines = [0, 0, 1000, 2 ^ 63 - 1] ∧
    (dirLoad (dirSave (freshTable [] 1 0)) (freshTable [] 1 0)).1.dir.unused_tail_rid
      = 1000 ∧
    (freshTable [] 1 0).dir.unused_tail_rid = 2 ^ 63 - 1 ∧
    (dirLoad (dirSave (freshTable [] 1 0)) (freshTable [] 1 0)).2 = Outcome.ok () := by
  refine ⟨rfl, by decide, by decide, rfl⟩

/-! ## C2: schema encoding of an update's tail record -/

/-- C2 counterexample: an update that supplies a value *equal* to the
latest committed value.  The spec bit ("present and different from the
latest value") is `0`, but the code's condition
`new_cols[i] is not None or (…)` sets the bit to `1`: the
"different from the latest" part is dead code. -/
theorem tail_schema_bit_differs_from_spec :
    tailSchemaLoop [PyVal.int 5] [PyVal.int 5] [false] =
      Except.ok ([true], [PyVal.int 5]) ∧
    specSchemaBit (PyVal.int 5) (PyVal.int 5) = false := by
  exact ⟨rfl, rfl⟩

/-- C2 (amended): in `add_tail_record`, bit *i* of the freshly computed
schema encoding is 1 iff the update supplies a non-null value for column
*i* (whether or not it differs from the latest value); the schema
encoding actually stored in the tail record is the cumulative OR with the
base record's schema encoding; and a column whose base-schema bit is 1
but whose supplied value is null inherits the latest version's value
(a column with a non-null supplied value keeps it; a null column with
base-schema bit 0 stays null). -/
theorem tail_schema_loop_characterization (ncs lcs : List PyVal) (bs : List Bool)
    (h1 : ncs.length = lcs.length) (h2 : ncs.length = bs.length) :
    ∃ bits cols cum,
      tailSchemaLoop ncs lcs bs = Except.ok (bits, cols) ∧
      bitOr bits bs = Except.ok cum ∧
      bits.length = ncs.length ∧ cols.length = ncs.length ∧
      ∀ i, i < ncs.length →
        (bits.getD i false = (ncs.getD i PyVal.none ≠ PyVal.none)) ∧
        (cum.getD i false =
          ((ncs.getD i PyVal.none ≠ PyVal.none : Bool) || bs.getD i false)) ∧
        (cols.getD i PyVal.none =
          if ncs.getD i PyVal.none ≠ PyVal.none then ncs.getD i PyVal.none
          else if bs.getD i false then lcs.getD i PyVal.none
          else PyVal.none) := by
  induction ncs generalizing lcs bs with
  | nil =>
    have hbs : bs = [] := List.eq_nil_of_length_eq_zero h2.symm
    subst hbs
    exact ⟨[], [], [], rfl, rfl, rfl, rfl, fun i hi => absurd hi (by simp)⟩
  | cons nc ncs ih =>
    rcases lcs with _ | ⟨lc, lcs⟩
    · simp at h1
    rcases bs with _ | ⟨b0, bs⟩
    · simp at h2
    simp only [List.length_cons, Nat.succ.injEq] at h1 h2
    obtain ⟨bits, cols, cum, hloop, hor, hblen, hclen, helt⟩ := ih lcs bs h1 h2
    by_cases hnc : nc = PyVal.none
    · subst hnc
      refine ⟨false :: bits, (if b0 then lc else PyVal.none) :: cols,
        (false || b0) :: cum, ?_, ?_, by simp [hblen], by simp [hclen], ?_⟩
      · simp only [tailSchemaLoop, List.drop_one, List.tail_cons]
        rw [if_neg (by simp)]
        simp [hloop]
      · unfold bitOr at hor ⊢
        rw [if_pos (by simp [hblen, h2])]
        rw [if_pos (by simpa [hblen] using h2)] at hor
        simp only [Except.ok.injEq] at hor
        simp [hor]
      · intro i hi
        cases i with
        | zero => simp
        | succ j =>
          have := helt j (by simpa using hi)
          simpa using this
    · refine ⟨true :: bits, nc :: cols, (true || b0) :: cum, ?_, ?_, by simp [hblen],
        by simp [hclen], ?_⟩
      · simp only [tailSchemaLoop, List.drop_one, List.tail_cons]
        rw [if_pos (by simpa using hnc)]
        simp [hloop]
      · unfold bitOr at hor ⊢
        rw [if_pos (by simp [hblen, h2])]
        rw [if_pos (by simpa [hblen] using h2)] at hor
        simp only [Except.ok.injEq] at hor
        simp [hor]
      · intro i hi
        cases i with
        | zero => simp [hnc]
        | succ j =>
          have := helt j (by simpa using hi)
          simpa using this

/-- C2 amended-claim witness at a concrete input. -/
theorem tail_schema_loop_characterization_witness :
    ∃ bits cols cum,
      tailSchemaLoop [PyVal.none, PyVal.int 5] [PyVal.int 3, PyVal.int 7]
        [true, false] = Except.ok (bits, cols) ∧
      bitOr bits [true, false] = Except.ok cum ∧
      bits.length = 2 ∧ cols.length = 2 ∧
      ∀ i, i < 2 →
        (bits.getD i false =
          (([PyVal.none, PyVal.int 5].getD i PyVal.none ≠ PyVal.none))) ∧
        (cum.getD i false =
          (([PyVal.none, PyVal.int 5].getD i PyVal.none ≠ PyVal.none : Bool) ||
            [true, false].getD i false)) ∧
        (cols.getD i PyVal.none =
          if [PyVal.none, PyVal.int 5].getD i PyVal.none ≠ PyVal.none then
            [PyVal.none, PyVal.int 5].getD i PyVal.none
          else if [true, false].getD i false then
            [PyVal.int 3, PyVal.int 7].getD i PyVal.none
          else PyVal.none) :=
  tail_schema_loop_characterization [PyVal.none, PyVal.int 5]
    [PyVal.int 3, PyVal.int 7] [true, false] (by decide) (by decide)

/-! ## C5: merge-queue stability -/

/-- C5 counterexample: in `resolveState`, resolving the two tail records
first and the two base records last brings both resolved-record counters
to the conceptual-page capacity (2), yet the merge queue stays empty —
a base-record resolution never appends, so the claimed "appended exactly
when both counters reach capacity" fails. -/
theorem merge_queue_misses_fully_resolved_page :
    (notifyResolve [7000000, 7000001, 1000, 1001] resolveState).2 = Outcome.ok () ∧
    (notifyResolve [7000000, 7000001, 1000, 1001] resolveState).1.dir.con_tp_num_resolved
      resolveTailPage.page_index = resolveState.maxRecs ∧
    (notifyResolve [7000000, 7000001, 1000, 1001] resolveState).1.dir.con_bp_num_resolved
      0 = resolveState.maxRecs ∧
    (notifyResolve [7000000, 7000001, 1000, 1001] resolveState).1.dir.merge_queue = [] := by
  refine ⟨by decide, by decide, by decide, by decide⟩

/-- C5 (amended): a `notify_resolve` step appends at most one PageId to
the merge queue, and it appends exactly when the resolved RID is a *tail*
record whose resolution brings its page's resolved counter to the
conceptual-page capacity while the owning base page's counter already
equals the capacity.  In particular a partially resolved page never
enters the queue; but a tail page whose own records resolve before its
base page's records never enters the queue either, because base-record
resolutions do not run the stability check. -/
theorem markResolved_merge_queue (s : EngineState) (rid : Int) (s' : EngineState)
    (o : Outcome Unit) (h : markResolved rid s = (s', o)) :
    (s'.dir.merge_queue = s.dir.merge_queue ∨
      ∃ pid, s'.dir.merge_queue = s.dir.merge_queue ++ [pid]) ∧
    (s'.dir.merge_queue ≠ s.dir.merge_queue ↔
      ∃ locs loc bp_idx,
        s.dir.offsets rid = some locs ∧ locs.get? 0 = some loc ∧
        loc.is_base = false ∧
        s.dir.con_tp_owner loc.page_index = some bp_idx ∧
        s.dir.con_bp_num_resolved bp_idx = s.maxRecs ∧
        s.dir.con_tp_num_resolved loc.page_index + 1 = s.maxRecs ∧
        s'.dir.merge_queue = s.dir.merge_queue ++ [loc.id]) := by
  unfold markResolved at h
  rw [PyM.bind_eq, PyM.bind_apply_ok _ (PyM.getS_apply s)] at h
  rcases ho : s.dir.offsets rid with _ | locs
  · rw [PyM.bind_eq, ho, dictGet_eq_none rfl,
      PyM.bind_apply_exc _ (PyM.throw_apply _ s)] at h
    injection h with h1 h2
    subst h1
    refine ⟨Or.inl rfl, ?_⟩
    simp only [ne_eq, not_true_eq_false, false_iff, not_exists]
    intro a b c hcon
    simp at hcon
  · rw [PyM.bind_eq, ho, dictGet_eq_some rfl,
      PyM.bind_apply_ok _ (PyM.pure_apply locs s)] at h
    rcases hg : locs.get? 0 with _ | loc
    · rw [PyM.bind_eq, pyGet_eq_none hg,
        PyM.bind_apply_exc _ (PyM.throw_apply _ s)] at h
      injection h with h1 h2
      subst h1
      refine ⟨Or.inl rfl, ?_⟩
      simp only [ne_eq, not_true_eq_false, false_iff, not_exists]
      intro a b c hcon
      obtain ⟨ha, hb, _⟩ := hcon
      injection ha with ha
      subst ha
      rw [hg] at hb
      cases hb
    · rw [PyM.bind_eq, pyGet_eq_some hg,
        PyM.bind_apply_ok _ (PyM.pure_apply loc s)] at h
      split at h
      case isTrue hbase =>
        rw [PyM.modifyS_apply] at h
        injection h with h1 h2
        subst h1
        refine ⟨Or.inl rfl, ?_⟩
        constructor
        · intro hne
          exact absurd rfl hne
        · intro hcon
          obtain ⟨a, b, c, ha, hb, hc, _⟩ := hcon
          injection ha with ha
          subst ha
          rw [hg] at hb
          injection hb with hb
          subst hb
          rw [hbase] at hc
          cases hc
      case isFalse hbase =>
        rw [PyM.bind_eq, PyM.bind_apply_ok _ (PyM.modifyS_apply _ s)] at h
        rw [PyM.bind_eq, PyM.bind_apply_ok _ (PyM.getS_apply _)] at h
        dsimp only at h
        rcases hown : s.dir.con_tp_owner loc.page_index with _ | bp_idx
        · rw [PyM.bind_eq, hown, dictGet_eq_none rfl,
            PyM.bind_apply_exc _ (PyM.throw_apply _ _)] at h
          injection h with h1 h2
          subst h1
          refine ⟨Or.inl rfl, ?_⟩
          simp only [ne_eq, not_true_eq_false, false_iff, not_exists]
          intro a b c hcon
          obtain ⟨ha, hb, _, hd, _⟩ := hcon
          injection ha with ha
          subst ha
          rw [hg] at hb
          injection hb with hb
          subst hb
          rw [hown] at hd
          cases hd
        · rw [PyM.bind_eq, hown, dictGet_eq_some rfl,
            PyM.bind_apply_ok _ (PyM.pure_apply bp_idx _)] at h
          split at h
          case isTrue hbp =>
            rw [PyM.pure_apply] at h
            injection h with h1 h2
            subst h1
            refine ⟨Or.inl rfl, ?_⟩
            simp only [ne_eq, not_true_eq_false, false_iff, not_exists]
            intro a b c hcon
            obtain ⟨ha, hb, _, hd, he, _⟩ := hcon
            injection ha with ha
            subst ha
            rw [hg] at hb
            injection hb with hb
            subst hb
            rw [hown] at hd
            injection hd with hd
            subst hd
            exact hbp (by simpa [EngineState.maxRecs] using he)
          case isFalse hbp =>
            rw [not_not] at hbp
            simp only [EngineState.maxRecs] at hbp
            split at h
            case isTrue htp =>
              rw [PyM.pure_apply] at h
              injection h with h1 h2
              subst h1
              refine ⟨Or.inl rfl, ?_⟩
              simp only [ne_eq, not_true_eq_false, false_iff, not_exists]
              intro a b c hcon
              obtain ⟨ha, hb, _, hd, _, hf, _⟩ := hcon
              injection ha with ha
              subst ha
              rw [hg] at hb
              injection hb with hb
              subst hb
              rw [hown] at hd
              injection hd with hd
              subst hd
              simp [upd, EngineState.maxRecs] at htp
              simp only [EngineState.maxRecs] at hf
              exact htp (by omega)
            case isFalse htp =>
              rw [not_not] at htp
              simp [upd, EngineState.maxRecs] at htp
              rw [PyM.modifyS_apply] at h
              injection h with h1 h2
              subst h1
              constructor
              · exact Or.inr ⟨loc.id, rfl⟩
              · constructor
                · intro _
                  exact ⟨locs, loc, bp_idx, rfl, hg, by simpa using hbase, hown,
                    by simpa [EngineState.maxRecs] using hbp,
                    by simp only [EngineState.maxRecs]; omega, rfl⟩
                · intro _
                  simp

/-- C5 amended-claim witness: in `resolveState3` (both base records and
the first tail record already resolved) resolving the final tail record
appends the tail page to the merge queue. -/
theorem markResolved_merge_queue_witness :
    ((markResolved 7000001 resolveState3).1.dir.merge_queue =
        resolveState3.dir.merge_queue ∨
      ∃ pid, (markResolved 7000001 resolveState3).1.dir.merge_queue =
        resolveState3.dir.merge_queue ++ [pid]) ∧
    ((markResolved 7000001 resolveState3).1.dir.merge_queue ≠
        resolveState3.dir.merge_queue ↔
      ∃ locs loc bp_idx,
        resolveState3.dir.offsets 7000001 = some locs ∧ locs.get? 0 = some loc ∧
        loc.is_base = false ∧
        resolveState3.dir.con_tp_owner loc.page_index = some bp_idx ∧
        resolveState3.dir.con_bp_num_resolved bp_idx = resolveState3.maxRecs ∧
        resolveState3.dir.con_tp_num_resolved loc.page_index + 1 =
          resolveState3.maxRecs ∧
        (markResolved 7000001 resolveState3).1.dir.merge_queue =
          resolveState3.dir.merge_queue ++ [loc.id]) :=
  markResolved_merge_queue resolveState3 7000001
    (markResolved 7000001 resolveState3).1 (markResolved 7000001 resolveState3).2
    rfl

/-! ## C8: eviction safety -/

/-- C8: `evict_page` refuses (raises, leaving the state unchanged) when
the frame's pin count is nonzero; a successful eviction implies the pin
count was zero, removes the frame, writes a dirty frame's buffer to its
column file before the discard, and leaves the disk untouched for a clean
frame.  `_evict_lru` only ever evicts the least-recently-used frame and
only once its pin count is zero (the sequential reading of the
condition-variable wait: a still-pinned LRU page times out and raises
instead of evicting). -/
theorem framesLookup_filter_self (l : List (PageId × List Nat)) (q : PageId) :
    framesLookup (l.filter fun p => ¬ p.1 = q) q = Option.none := by
  induction l with
  | nil => rfl
  | cons a l ih =>
    rw [List.filter_cons]
    by_cases ha : a.1 = q
    · rw [if_neg (by simpa using ha)]
      exact ih
    · rw [if_pos (by simpa using ha)]
      simp only [framesLookup] at ih ⊢
      rw [List.find?_cons_of_neg _ (by simpa using ha)]
      exact ih

theorem bufferpool_eviction_safety (s : BufState) (page_id : PageId) :
    (s.pins page_id ≠ 0 → evictPage page_id s = (s, Outcome.exc Exc.valueError)) ∧
    (∀ s' u, evictPage page_id s = (s', Outcome.ok u) →
      s.pins page_id = 0 ∧
      framesLookup s'.frames page_id = Option.none ∧
      (page_id ∈ s.dirty → s'.disk page_id = framesLookup s.frames page_id) ∧
      (page_id ∉ s.dirty → s'.disk = s.disk)) ∧
    (∀ s' u, evictLru s = (s', Outcome.ok u) →
      ∃ lru buf rest, s.frames = (lru, buf) :: rest ∧ s.pins lru = 0) := by
  refine ⟨?_, ?_, ?_⟩
  · intro hpin
    unfold evictPage
    rw [PyM.bind_eq, PyM.bind_apply_ok _ (PyM.getS_apply s), if_pos hpin,
      PyM.throw_apply]
  · intro s' u h
    unfold evictPage at h
    simp only [PyM.bind_eq, PyM.pure_eq] at h
    rw [PyM.bind_apply_ok _ (PyM.getS_apply s)] at h
    split at h
    case isTrue hpin =>
      rw [PyM.throw_apply] at h
      simp at h
    case isFalse hpin =>
      rw [ne_eq, not_not] at hpin
      split at h
      case isTrue hdirty =>
        rcases hf : framesLookup s.frames page_id with _ | buf
        · rw [hf, dictGet_eq_none rfl] at h
          simp only [PyM.throw_apply, PyM.bind] at h
          simp at h
        · rw [hf, dictGet_eq_some rfl] at h
          simp only [PyM.bind, PyM.pure_apply, PyM.modifyS_apply] at h
          rw [Prod.ext_iff] at h
          obtain ⟨h1, h2⟩ := h
          subst h1
          refine ⟨hpin, ?_, fun _ => ?_, fun hnd => absurd hdirty hnd⟩
          · exact framesLookup_filter_self _ _
          · simp [upd, hf]
      case isFalse hdirty =>
        simp only [PyM.bind, PyM.pure_apply, PyM.modifyS_apply] at h
        rw [Prod.ext_iff] at h
        obtain ⟨h1, h2⟩ := h
        subst h1
        exact ⟨hpin, framesLookup_filter_self _ _, fun hd => absurd hd hdirty,
          fun _ => rfl⟩
  · intro s' u h
    unfold evictLru at h
    simp only [PyM.bind_eq, PyM.pure_eq] at h
    rw [PyM.bind_apply_ok _ (PyM.getS_apply s)] at h
    rcases hfr : s.frames with _ | ⟨⟨lru, buf⟩, rest⟩ <;> rw [hfr] at h
    · simp only [PyM.throw_apply] at h
      simp at h
    · simp only at h
      split at h
      case isTrue hpin =>
        rw [PyM.throw_apply] at h
        simp at h
      case isFalse hpin =>
        rw [ne_eq, not_not] at hpin
        exact ⟨lru, buf, rest, rfl, hpin⟩

/-! ## C7: invalid version is rejected -/

/-- C7: `get_record_version` raises `ValueError` (before reading anything
and without touching the state) whenever the requested version is
positive, and on a table that has allocated at least one base RID the
query layer's `select_version` surfaces the raised error as the
distinguished `False` return instead of letting it escape. -/
theorem invalid_version_rejected (s : EngineState) (base_rid v : Int)
    (hv : 0 < v) :
    getRecordVersion base_rid v s = (s, Outcome.exc Exc.valueError) ∧
    (∀ search_key search_key_index proj,
      config.BASE_RID_BEGIN < s.dir.unused_base_rid →
      selectVersionQ search_key search_key_index proj v s =
        (s, Outcome.ok Option.none)) := by
  have h1 : getRecordVersion base_rid v s = (s, Outcome.exc Exc.valueError) := by
    unfold getRecordVersion
    rw [if_pos hv]
    rfl
  refine ⟨h1, ?_⟩
  intro search_key search_key_index proj hub
  have h1' : ∀ r : Int, getRecordVersion r v s = (s, Outcome.exc Exc.valueError) := by
    intro r
    unfold getRecordVersion
    rw [if_pos hv]
    rfl
  obtain ⟨k, hk⟩ : ∃ k, (s.dir.unused_base_rid - config.BASE_RID_BEGIN).toNat
      = k + 1 := by
    refine ⟨(s.dir.unused_base_rid - config.BASE_RID_BEGIN).toNat - 1, ?_⟩
    simp only [config.BASE_RID_BEGIN] at hub ⊢
    omega
  obtain ⟨rest, hrids⟩ : ∃ rest,
      baseRids s = (config.BASE_RID_BEGIN + ((0 : Nat) : Int)) :: rest := by
    unfold baseRids
    rw [hk, List.range_succ_eq_map]
    exact ⟨_, rfl⟩
  have hgen : recordsGen v s = (s, Outcome.exc Exc.valueError) := by
    unfold recordsGen
    try simp only [PyM.bind_eq, PyM.pure_eq]
    rw [PyM.bind_apply_ok _ (PyM.getS_apply s)]
    apply PyM.bind_apply_exc
    rw [hrids]
    unfold mapL
    try simp only [PyM.bind_eq, PyM.pure_eq]
    exact PyM.bind_apply_exc _ (h1' _)
  unfold selectVersionQ
  apply PyM.tryCatch_apply_exc
  unfold selectVersionImpl
  try simp only [PyM.bind_eq, PyM.pure_eq]
  rw [if_neg (by omega)]
  exact PyM.bind_apply_exc _ hgen

/-- C7 witness: a version of `1` on a one-row table. -/
theorem invalid_version_rejected_witness :
    getRecordVersion 1000 1 oneRowDirState =
      (oneRowDirState, Outcome.exc Exc.valueError) ∧
    (∀ search_key search_key_index proj,
      config.BASE_RID_BEGIN < oneRowDirState.dir.unused_base_rid →
      selectVersionQ search_key search_key_index proj 1 oneRowDirState =
        (oneRowDirState, Outcome.ok Option.none)) :=
  invalid_version_rejected oneRowDirState 1000 1 (by decide)

/-! ## C4: duplicate-key insert is a rejected no-op -/

/-- C4: when the key index already holds the row's primary-key value,
`insert` returns the distinguished `False` and the engine state is
returned unchanged — no base RID allocated, no page written, no index
entry added, nothing appended to the WAL. -/
theorem duplicate_key_insert_rejected (s : EngineState) (cols : List Int)
    (time_now : Int) (ix : RangedIdx) (v : Int)
    (hlen : cols.length = s.num_columns)
    (hkv : cols.get? s.key = some v)
    (hix : s.indices.get? s.key = some (some ix))
    (hdup : ix.locate v ≠ []) :
    insertQ cols time_now s = (s, Outcome.ok false) := by
  have himpl : insertImplX cols time_now Option.none s =
      (s, Outcome.ok (false, [])) := by
    unfold insertImplX
    try simp only [PyM.bind_eq, PyM.pure_eq]
    rw [PyM.bind_apply_ok _ (PyM.getS_apply s)]
    rw [if_neg (by simp [hlen])]
    rw [PyM.bind_apply_ok _ (congrFun (pyGet_eq_some hkv) s)]
    rw [PyM.bind_apply_ok _ (indexLocate_ok hix v)]
    rw [if_pos (by simpa using List.length_pos.mpr hdup)]
    rfl
  unfold insertQ
  apply PyM.tryCatch_apply_ok
  rw [PyM.bind_apply_ok _ himpl]
  rfl

/-- C4 witness: inserting `[7, 1]` into `dupKeyState`, whose key index
already maps `7` to base RID 1000. -/
theorem duplicate_key_insert_rejected_witness :
    insertQ [7, 1] 99 dupKeyState = (dupKeyState, Outcome.ok false) :=
  duplicate_key_insert_rejected dupKeyState [7, 1] 99 ⟨true, [(7, [1000])]⟩ 7
    (by decide) (by decide) (by decide) (by decide)

/-! ## C10: all-null update is a successful no-op -/

/-- C10: when the primary key exists (the key index locates exactly one
base RID) and every update column is null, `update` returns `True` and
the engine state is returned unchanged — no tail RID allocated, no page
written, no index change, nothing appended to the WAL. -/
theorem all_null_update_is_noop (s : EngineState) (primary_key time_now : Int)
    (cols : List (Option Int)) (ix : RangedIdx) (rid : Int)
    (hlen : cols.length = s.num_columns)
    (hix : s.indices.get? s.key = some (some ix))
    (hloc : ix.locate primary_key = [rid])
    (hall : cols.all Option.isNone) :
    updateQ primary_key cols time_now s = (s, Outcome.ok true) := by
  have himpl : updateImplX primary_key cols time_now Option.none s =
      (s, Outcome.ok (true, [])) := by
    unfold updateImplX
    try simp only [PyM.bind_eq, PyM.pure_eq]
    rw [PyM.bind_apply_ok _ (PyM.getS_apply s)]
    rw [PyM.bind_apply_ok _ (indexLocate_ok hix primary_key)]
    rw [hloc]
    rw [if_neg (by simp)]
    rw [PyM.bind_apply_ok _ (congrFun
      (pyGet_eq_some (show [rid].get? 0 = some rid from rfl)) s)]
    rw [if_pos hall]
    rfl
  unfold updateQ
  apply PyM.tryCatch_apply_ok
  rw [PyM.bind_apply_ok _ himpl]
  rfl

/-- C10 witness: an all-null update of key `7` in `dupKeyState`. -/
theorem all_null_update_is_noop_witness :
    updateQ 7 [Option.none, Option.none] 99 dupKeyState =
      (dupKeyState, Outcome.ok true) :=
  all_null_update_is_noop dupKeyState 7 99 [Option.none, Option.none]
    ⟨true, [(7, [1000])]⟩ 1000 (by decide) (by decide) (by decide) (by decide)

/-- C8 witness: in `bufWitState`, evicting the pinned `bufPage1` raises
and changes nothing, and evicting the unpinned dirty `bufPage0` succeeds,
implying its pin count was zero with its buffer written back. -/
theorem bufferpool_eviction_safety_witness :
    (evictPage bufPage1 bufWitState = (bufWitState, Outcome.exc Exc.valueError)) ∧
    (bufWitState.pins bufPage0 = 0 ∧
      framesLookup (evictPage bufPage0 bufWitState).1.frames bufPage0 = Option.none ∧
      (bufPage0 ∈ bufWitState.dirty →
        (evictPage bufPage0 bufWitState).1.disk bufPage0 =
          framesLookup bufWitState.frames bufPage0) ∧
      (bufPage0 ∉ bufWitState.dirty →
        (evictPage bufPage0 bufWitState).1.disk = bufWitState.disk)) :=
  ⟨(bufferpool_eviction_safety bufWitState bufPage1).1 (by decide),
    (bufferpool_eviction_safety bufWitState bufPage0).2.1
      (evictPage bufPage0 bufWitState).1 () (Prod.ext rfl rfl)⟩

theorem natToLE_length (n v : Nat) : (natToLE n v).length = n := by
  induction n generalizing v with
  | zero => rfl
  | succ m ih => simp [natToLE, ih]

theorem natFromLE_natToLE (n v : Nat) (hv : v < 2 ^ (8 * n)) :
    natFromLE (natToLE n v) = v := by
  induction n generalizing v with
  | zero =>
    simp only [natToLE, natFromLE]
    omega
  | succ m ih =>
    rw [natToLE, natFromLE, ih (v / 256) ?_]
    · omega
    · rw [show 8 * (m + 1) = 8 * m + 8 from by ring, pow_add] at hv
      norm_num at hv
      omega

theorem parseUintP_serializeUint (v : Int) (n : Nat) (bs rest : List Nat)
    (h : serializeUint v n = Except.ok bs) :
    parseUintP n (bs ++ rest) = (v.toNat, rest) := by
  unfold serializeUint at h
  split at h
  case isFalse => simp at h
  case isTrue hv =>
    injection h with h
    subst h
    have hlen : (natToLE n v.toNat).length = n := natToLE_length n v.toNat
    have hlt : v.toNat < 2 ^ (8 * n) := by
      have h2 : v < ((2 ^ (8 * n) : Nat) : Int) := by push_cast; exact hv.2
      omega
    unfold parseUintP
    rw [List.take_left' hlen, List.drop_left' hlen, natFromLE_natToLE n v.toNat hlt]

theorem parseIntP_serializeInt (v : Int) (bs rest : List Nat)
    (h : serializeInt v config.DATA_SIZE = Except.ok bs) :
    parseIntP config.DATA_SIZE (bs ++ rest) = (v, rest) := by
  unfold serializeInt at h
  simp only [config.DATA_SIZE] at h ⊢
  split at h
  case isFalse => simp at h
  case isTrue hv =>
    injection h with h
    subst h
    norm_num at hv
    have hmod0 : (0:Int) ≤ v % (2 ^ (8 * 8)) := Int.emod_nonneg v (by norm_num)
    have hmodlt : v % (2 ^ (8 * 8)) < 2 ^ (8 * 8) :=
      Int.emod_lt_of_pos v (by norm_num)
    have hwv : ((v % (2 ^ (8 * 8))).toNat : Int) = v % (2 ^ (8 * 8)) :=
      Int.toNat_of_nonneg hmod0
    have hlen : (natToLE 8 (v % (2 ^ (8 * 8))).toNat).length = 8 :=
      natToLE_length 8 _
    have hcases : v % (2 ^ (8 * 8)) = v ∨
        v % (2 ^ (8 * 8)) = v + 2 ^ (8 * 8) := by
      norm_num
      omega
    unfold parseIntP
    rw [List.take_left' hlen, List.drop_left' hlen]
    have hfst : leSigned (natToLE 8 (v % (2 ^ (8 * 8))).toNat) = v := by
      unfold leSigned
      rw [hlen]
      have hwlt : (v % (2 ^ (8 * 8))).toNat < 2 ^ (8 * 8) := by
        norm_num at hmodlt ⊢
        omega
      rw [natFromLE_natToLE 8 _ hwlt]
      norm_num at hwv hcases hv hwlt ⊢
      split
      all_goals omega
    rw [hfst]

theorem utf8Encode_ascii (cs : List Nat) (h : ∀ c ∈ cs, c < 128) :
    utf8Encode cs = Except.ok cs := by
  induction cs with
  | nil => rfl
  | cons c cs ih =>
    have hc : c < 128 := h c (List.mem_cons_self c cs)
    have hcs := ih fun x hx => h x (List.mem_cons_of_mem c hx)
    unfold utf8Encode utf8EncodeChar
    rw [if_pos hc]
    rw [hcs]
    rfl

theorem utf8DecodeLoop_ascii (cs : List Nat) (h : ∀ c ∈ cs, c < 128) :
    ∀ n, cs.length ≤ n → utf8DecodeLoop n cs = Except.ok cs := by
  induction cs with
  | nil =>
    intro n _
    cases n <;> rfl
  | cons c cs ih =>
    intro n hn
    cases n with
    | zero => exact absurd hn (by simp)
    | succ m =>
      have hc : c < 128 := h c (List.mem_cons_self c cs)
      have hstep : utf8DecodeStep c cs = Except.ok (c, cs) := by
        unfold utf8DecodeStep
        rw [if_pos hc]
      rw [utf8DecodeLoop, hstep]
      dsimp only
      rw [ih (fun x hx => h x (List.mem_cons_of_mem c hx)) m (by simpa using hn)]

theorem utf8Decode_ascii (cs : List Nat) (h : ∀ c ∈ cs, c < 128) :
    utf8Decode cs = Except.ok cs :=
  utf8DecodeLoop_ascii cs h cs.length le_rfl

theorem exceptBind_ok {α β : Type} (a : α) (f : α → Except Exc β) :
    (Except.ok a >>= f) = f a := rfl

theorem exceptBind_err {α β : Type} (e : Exc) (f : α → Except Exc β) :
    (Except.error e >>= f : Except Exc β) = Except.error e := rfl

set_option maxRecDepth 4000 in
theorem parseStrP_serializeStr (sName bs rest : List Nat)
    (hascii : ∀ c ∈ sName, c < 128)
    (h : serializeStr sName = Except.ok bs) :
    parseStrP (bs ++ rest) = Except.ok (sName, rest) := by
  unfold serializeStr at h
  split at h
  case isTrue => simp at h
  case isFalse hlen =>
    rcases hu : serializeUint sName.length config.MAX_TABLE_SIZE_INT with e | lenB
    · rw [hu, exceptBind_err] at h
      simp at h
    · rw [hu] at h
      rw [exceptBind_ok] at h
      rw [utf8Encode_ascii sName hascii] at h
      rw [exceptBind_ok] at h
      rw [Except.ok.injEq] at h
      subst h
      unfold parseStrP
      rw [List.append_assoc,
        parseUintP_serializeUint (sName.length : Int) config.MAX_TABLE_SIZE_INT
          lenB (sName ++ rest) hu]
      have hn : ((sName.length : Int)).toNat = sName.length := by simp
      simp only [hn]
      rw [List.take_left' rfl, List.drop_left' rfl, utf8Decode_ascii sName hascii,
        exceptBind_ok]

theorem byteBits_eq_bitsOf (b : Nat) : byteBits b = bitsOf 8 b := rfl

theorem bitsOf_succ (n v : Nat) :
    bitsOf (n + 1) v = (decide (v % 2 = 1)) :: bitsOf n (v / 2) := by
  unfold bitsOf
  rw [List.range_succ_eq_map, List.map_cons, List.map_map]
  congr 1
  · norm_num
  · apply List.map_congr_left
    intro i _
    have hd : v / 2 ^ (i + 1) = v / 2 / 2 ^ i := by
      rw [Nat.div_div_eq_div_mul, pow_succ']
    simp [Function.comp, hd]

theorem bitsOf_zero_val (n : Nat) : bitsOf n 0 = List.replicate n false := by
  induction n with
  | zero => rfl
  | succ m ih => simp [bitsOf_succ, ih, List.replicate_succ]

theorem bitsOf_byteVal (fl : List Bool) :
    ∀ n, fl.length ≤ n →
      bitsOf n (byteVal fl) = fl ++ List.replicate (n - fl.length) false := by
  induction fl with
  | nil =>
    intro n _
    simp [byteVal, bitsOf_zero_val]
  | cons b bs ih =>
    intro n hn
    cases n with
    | zero => exact absurd hn (by simp)
    | succ m =>
      rw [bitsOf_succ]
      have h1 : byteVal (b :: bs) % 2 = if b then 1 else 0 := by
        simp only [byteVal]
        rcases b <;> simp
      have h2 : byteVal (b :: bs) / 2 = byteVal bs := by
        simp only [byteVal]
        rcases b <;> simp <;> omega
      rw [h1, h2, ih m (by simpa using hn)]
      rcases b <;> simp [List.replicate_succ]

theorem bitsToBytes_length (l : List Bool) :
    (bitsToBytes l).length = (l.length + 7) / 8 := by
  induction l using bitsToBytes.induct with
  | case1 => simp [bitsToBytes]
  | case2 b bs ih =>
    rw [bitsToBytes]
    simp only [List.length_cons, List.length_drop] at ih ⊢
    omega

theorem bytesToBits_bitsToBytes (l : List Bool) :
    (bytesToBits (bitsToBytes l)).take l.length = l := by
  induction l using bitsToBytes.induct with
  | case1 => simp [bitsToBytes, bytesToBits]
  | case2 b bs ih =>
    rw [bitsToBytes]
    unfold bytesToBits at ih ⊢
    rw [List.flatMap_cons]
    have htake8 : ((b :: bs).take 8).length ≤ 8 := by
      simp [List.length_take]
    rw [byteBits_eq_bitsOf, bitsOf_byteVal _ 8 htake8]
    rcases le_or_lt bs.length 7 with hle | hgt
    · have ht : (b :: bs).take 8 = b :: bs :=
        List.take_of_length_le (by simp; omega)
      rw [ht, List.append_assoc]
      exact List.take_left' rfl
    · have hlen8 : ((b :: bs).take 8).length = 8 := by
        simp [List.length_take]
        omega
      rw [hlen8, Nat.sub_self, List.replicate_zero, List.append_nil]
      rw [List.take_append_eq_append_take, List.take_take, hlen8]
      have hmin : min (b :: bs).length 8 = 8 := by
        simp
        omega
      have hsub : (b :: bs).length - 8 = (bs.drop 7).length := by
        simp
      rw [hmin, hsub, ih]
      rw [show (8:Nat) = 7 + 1 from rfl, List.take_succ_cons, List.cons_append,
        List.take_append_drop]

theorem parseInsertCols_mapM (cols : List Int) (valBs : List (List Nat))
    (rest : List Nat)
    (h : cols.mapM (fun c => serializeInt c config.DATA_SIZE) = Except.ok valBs) :
    parseInsertCols cols.length (valBs.flatten ++ rest) = (cols, rest) := by
  induction cols generalizing valBs rest with
  | nil =>
    rw [List.mapM_nil,
      show (pure [] : Except Exc (List (List Nat))) = Except.ok [] from rfl,
      Except.ok.injEq] at h
    subst h
    rfl
  | cons c cs ih =>
    rw [List.mapM_cons] at h
    rcases hc : serializeInt c config.DATA_SIZE with e | b
    · rw [hc, exceptBind_err] at h
      simp at h
    · rw [hc, exceptBind_ok] at h
      rcases hcs : cs.mapM (fun c => serializeInt c config.DATA_SIZE) with e | tailBs
      · rw [hcs, exceptBind_err] at h
        simp at h
      · rw [hcs, exceptBind_ok] at h
        rw [show (pure (b :: tailBs) : Except Exc (List (List Nat))) =
          Except.ok (b :: tailBs) from rfl, Except.ok.injEq] at h
        subst h
        rw [List.length_cons, parseInsertCols, List.flatten_cons, List.append_assoc,
          parseIntP_serializeInt c b (tailBs.flatten ++ rest) hc]
        dsimp only
        rw [ih tailBs rest hcs]

theorem parseUpdateVals_mapM (cols : List (Option Int)) (valBs : List (List Nat))
    (rest : List Nat)
    (h : (cols.filterMap id).mapM (fun c => serializeInt c config.DATA_SIZE) =
      Except.ok valBs) :
    parseUpdateVals (cols.map Option.isSome) (valBs.flatten ++ rest) =
      (cols, rest) := by
  induction cols generalizing valBs rest with
  | nil =>
    rw [List.filterMap_nil, List.mapM_nil,
      show (pure [] : Except Exc (List (List Nat))) = Except.ok [] from rfl,
      Except.ok.injEq] at h
    subst h
    rfl
  | cons c cs ih =>
    rcases c with _ | v
    · rw [List.filterMap_cons_none rfl] at h
      rw [List.map_cons]
      show parseUpdateVals (false :: cs.map Option.isSome) (valBs.flatten ++ rest) = _
      rw [parseUpdateVals]
      rw [if_neg (by simp)]
      rw [ih valBs rest h]
    · rw [List.filterMap_cons_some (show id (some v) = some v from rfl),
        List.mapM_cons] at h
      rcases hc : serializeInt v config.DATA_SIZE with e | b
      · rw [hc, exceptBind_err] at h
        simp at h
      · rw [hc, exceptBind_ok] at h
        rcases hcs : (cs.filterMap id).mapM
            (fun c => serializeInt c config.DATA_SIZE) with e | tailBs
        · rw [hcs, exceptBind_err] at h
          simp at h
        · rw [hcs, exceptBind_ok] at h
          rw [show (pure (b :: tailBs) : Except Exc (List (List Nat))) =
            Except.ok (b :: tailBs) from rfl, Except.ok.injEq] at h
          subst h
          rw [List.map_cons]
          show parseUpdateVals (true :: cs.map Option.isSome)
            ((b :: tailBs).flatten ++ rest) = _
          rw [parseUpdateVals]
          rw [if_pos rfl, List.flatten_cons, List.append_assoc,
            parseIntP_serializeInt v b (tailBs.flatten ++ rest) hc]
          dsimp only
          rw [ih tailBs rest hcs]

theorem parseUintP_one (b : Nat) (X : List Nat) : parseUintP 1 (b :: X) = (b, X) := by
  unfold parseUintP
  simp [natFromLE]

theorem parseQueryP_serializeQuery (q : StoredQuery) (qb rest : List Nat)
    (hmut : q.args ≠ WalArgs.readonlyA)
    (hascii : ∀ c ∈ q.table, c < 128)
    (h : serializeQuery q = Except.ok qb) :
    parseQueryP (qb ++ rest) = Except.ok (redoOfQuery q, rest) := by
  rcases q with ⟨table, args⟩
  rcases args with cols | ⟨key, cols⟩ | ⟨key, inc⟩ | key | _
  case readonlyA => exact absurd rfl hmut
  case insertA =>
    simp only [serializeQuery] at h
    rcases hs : serializeStr table with e | nameB
    · rw [hs, exceptBind_err] at h
      simp at h
    · rw [hs, exceptBind_ok] at h
      rcases hb : serializeInsert cols with e | body
      · rw [hb, exceptBind_err] at h
        simp at h
      · rw [hb, exceptBind_ok, Except.ok.injEq] at h
        subst h
        unfold serializeInsert at hb
        rcases hu : serializeUint (cols.length : Int) config.COL_ENCODING with e | lenB
        · rw [hu, exceptBind_err] at hb
          simp at hb
        · rw [hu, exceptBind_ok] at hb
          rcases hm : cols.mapM (fun c => serializeInt c config.DATA_SIZE)
            with e | colBs
          · rw [hm, exceptBind_err] at hb
            simp at hb
          · rw [hm, exceptBind_ok, Except.ok.injEq] at hb
            subst hb
            unfold parseQueryP
            simp only [List.cons_append]
            rw [parseUintP_one]
            dsimp only
            norm_num
            try simp only [List.append_assoc]
            rw [parseStrP_serializeStr table nameB _ hascii hs, exceptBind_ok]
            dsimp only
            norm_num
            rw [parseUintP_serializeUint (cols.length : Int) config.COL_ENCODING
              lenB _ hu]
            dsimp only
            rw [show ((cols.length : Int)).toNat = cols.length from by simp,
              parseInsertCols_mapM cols colBs rest hm]
            exact ⟨rfl, rfl⟩
  case updateA =>
    simp only [serializeQuery] at h
    rcases hs : serializeStr table with e | nameB
    · rw [hs, exceptBind_err] at h
      simp at h
    · rw [hs, exceptBind_ok] at h
      rcases hb : serializeUpdate key cols with e | body
      · rw [hb, exceptBind_err] at h
        simp at h
      · rw [hb, exceptBind_ok, Except.ok.injEq] at h
        subst h
        unfold serializeUpdate at hb
        rcases hk : serializeInt key config.DATA_SIZE with e | keyB
        · rw [hk, exceptBind_err] at hb
          simp at hb
        · rw [hk, exceptBind_ok] at hb
          rcases hu : serializeUint (cols.length : Int) config.COL_ENCODING
            with e | lenB
          · rw [hu, exceptBind_err] at hb
            simp at hb
          · rw [hu, exceptBind_ok] at hb
            rcases hm : (cols.filterMap id).mapM
                (fun c => serializeInt c config.DATA_SIZE) with e | valBs
            · rw [hm, exceptBind_err] at hb
              simp at hb
            · rw [hm, exceptBind_ok, Except.ok.injEq] at hb
              subst hb
              unfold parseQueryP
              simp only [List.cons_append]
              rw [parseUintP_one]
              dsimp only
              norm_num
              try simp only [List.append_assoc]
              rw [parseStrP_serializeStr table nameB _ hascii hs, exceptBind_ok]
              dsimp only
              norm_num
              rw [parseIntP_serializeInt key keyB _ hk]
              dsimp only
              rw [parseUintP_serializeUint (cols.length : Int) config.COL_ENCODING
                lenB _ hu]
              dsimp only
              rw [show ((cols.length : Int)).toNat = cols.length from by simp]
              have hmlen : (bitsToBytes (cols.map Option.isSome)).length =
                  (cols.length + 7) / 8 := by
                rw [bitsToBytes_length, List.length_map]
              rw [List.take_left' hmlen, List.drop_left' hmlen]
              have hba : (bytesToBits (bitsToBytes (cols.map Option.isSome))).take
                  cols.length = cols.map Option.isSome := by
                have h0 := bytesToBits_bitsToBytes (cols.map Option.isSome)
                rwa [List.length_map] at h0
              rw [hba, parseUpdateVals_mapM cols valBs rest hm]
              exact ⟨rfl, rfl⟩
  case incrementA =>
    simp only [serializeQuery] at h
    rcases hs : serializeStr table with e | nameB
    · rw [hs, exceptBind_err] at h
      simp at h
    · rw [hs, exceptBind_ok] at h
      rcases hb : serializeIncrement key inc with e | body
      · rw [hb, exceptBind_err] at h
        simp at h
      · rw [hb, exceptBind_ok, Except.ok.injEq] at h
        subst h
        unfold serializeIncrement at hb
        rcases hk : serializeInt key config.DATA_SIZE with e | keyB
        · rw [hk, exceptBind_err] at hb
          simp at hb
        · rw [hk, exceptBind_ok] at hb
          rcases hu : serializeUint inc config.COL_ENCODING with e | colB
          · rw [hu, exceptBind_err] at hb
            simp at hb
          · rw [hu, exceptBind_ok, Except.ok.injEq] at hb
            subst hb
            unfold parseQueryP
            simp only [List.cons_append]
            rw [parseUintP_one]
            dsimp only
            norm_num
            try simp only [List.append_assoc]
            rw [parseStrP_serializeStr table nameB _ hascii hs, exceptBind_ok]
            dsimp only
            norm_num
            rw [parseIntP_serializeInt key keyB _ hk]
            dsimp only
            rw [parseUintP_serializeUint inc config.COL_ENCODING colB rest hu]
            exact ⟨rfl, rfl⟩
  case deleteA =>
    simp only [serializeQuery] at h
    rcases hs : serializeStr table with e | nameB
    · rw [hs, exceptBind_err] at h
      simp at h
    · rw [hs, exceptBind_ok] at h
      rcases hb : serializeInt key config.DATA_SIZE with e | body
      · rw [hb, exceptBind_err] at h
        simp at h
      · rw [hb, exceptBind_ok, Except.ok.injEq] at h
        subst h
        unfold parseQueryP
        simp only [List.cons_append]
        rw [parseUintP_one]
        dsimp only
        norm_num
        try simp only [List.append_assoc]
        rw [parseStrP_serializeStr table nameB _ hascii hs, exceptBind_ok]
        dsimp only
        norm_num
        rw [parseIntP_serializeInt key body rest hb]
        exact ⟨rfl, rfl⟩

theorem serializeUint_length (v : Int) (n : Nat) (bs : List Nat)
    (h : serializeUint v n = Except.ok bs) : bs.length = n := by
  unfold serializeUint at h
  split at h
  case isFalse => simp at h
  case isTrue =>
    rw [Except.ok.injEq] at h
    subst h
    exact natToLE_length n _

theorem serializeUint_nonneg (v : Int) (n : Nat) (bs : List Nat)
    (h : serializeUint v n = Except.ok bs) : 0 ≤ v := by
  unfold serializeUint at h
  split at h
  case isFalse => simp at h
  case isTrue hv => exact hv.1

theorem parseQueriesP_mapM (qs : List StoredQuery) (qBs : List (List Nat))
    (rest : List Nat)
    (hmut : ∀ q ∈ qs, q.args ≠ WalArgs.readonlyA)
    (hascii : ∀ q ∈ qs, ∀ c ∈ q.table, c < 128)
    (h : qs.mapM serializeQuery = Except.ok qBs) :
    parseQueriesP qs.length (qBs.flatten ++ rest) =
      Except.ok (qs.map redoOfQuery, rest) := by
  induction qs generalizing qBs rest with
  | nil =>
    rw [List.mapM_nil,
      show (pure [] : Except Exc (List (List Nat))) = Except.ok [] from rfl,
      Except.ok.injEq] at h
    subst h
    rfl
  | cons q qs ih =>
    rw [List.mapM_cons] at h
    rcases hq : serializeQuery q with e | qb
    · rw [hq, exceptBind_err] at h
      simp at h
    · rw [hq, exceptBind_ok] at h
      rcases hqs : qs.mapM serializeQuery with e | tailBs
      · rw [hqs, exceptBind_err] at h
        simp at h
      · rw [hqs, exceptBind_ok,
          show (pure (qb :: tailBs) : Except Exc (List (List Nat))) =
            Except.ok (qb :: tailBs) from rfl,
          Except.ok.injEq] at h
        subst h
        rw [List.length_cons, List.flatten_cons, List.append_assoc, parseQueriesP]
        rw [parseQueryP_serializeQuery q qb _ (hmut q (List.mem_cons_self q qs))
          (hascii q (List.mem_cons_self q qs)) hq, exceptBind_ok]
        dsimp only
        rw [ih tailBs rest (fun x hx => hmut x (List.mem_cons_of_mem q hx))
          (fun x hx => hascii x (List.mem_cons_of_mem q hx)) hqs, exceptBind_ok]
        rfl

theorem parseXactP_serializeXact (x : Xact) (bs rest : List Nat)
    (hmut : ∀ q ∈ x.queries, q.args ≠ WalArgs.readonlyA)
    (hascii : ∀ q ∈ x.queries, ∀ c ∈ q.table, c < 128)
    (h : serializeXact x = Except.ok bs) :
    parseXactP (bs ++ rest) =
      Except.ok (⟨x.start_time.toNat, x.queries.map redoOfQuery⟩, rest) ∧
      bs ≠ [] ∧ 0 ≤ x.start_time := by
  unfold serializeXact at h
  rcases hst : serializeUint x.start_time config.DATA_SIZE with e | stB
  · rw [hst, exceptBind_err] at h
    simp at h
  · rw [hst, exceptBind_ok] at h
    rcases hn : serializeUint (x.queries.length : Int) config.N_QUERY_ENCODING
      with e | nB
    · rw [hn, exceptBind_err] at h
      simp at h
    · rw [hn, exceptBind_ok] at h
      rcases hqs : x.queries.mapM serializeQuery with e | qBs
      · rw [hqs, exceptBind_err] at h
        simp at h
      · rw [hqs, exceptBind_ok, Except.ok.injEq] at h
        subst h
        refine ⟨?_, ?_, serializeUint_nonneg _ _ _ hst⟩
        · unfold parseXactP
          simp only [List.append_assoc]
          rw [parseUintP_serializeUint x.start_time config.DATA_SIZE stB _ hst]
          dsimp only
          rw [parseUintP_serializeUint (x.queries.length : Int)
            config.N_QUERY_ENCODING nB _ hn]
          dsimp only
          rw [show ((x.queries.length : Int)).toNat = x.queries.length from by simp]
          rw [parseQueriesP_mapM x.queries qBs rest hmut hascii hqs, exceptBind_ok]
        · have h8 : stB.length = config.DATA_SIZE := serializeUint_length _ _ _ hst
          intro hnil
          rw [show stB ++ nB ++ qBs.flatten = stB ++ (nB ++ qBs.flatten) from
            List.append_assoc stB nB qBs.flatten] at hnil
          have := List.append_eq_nil.mp hnil
          rw [this.1] at h8
          simp [config.DATA_SIZE] at h8

/-- **C6** (amended round trip): for a transaction whose recorded queries are
all mutating and whose table names are ASCII, parsing the serialized bytes
yields exactly one redo transaction with the same start time and the same
ordered list of queries (type, table name and arguments, nulls preserved). -/
theorem wal_serialize_parse_roundtrip (x : Xact) (bs : List Nat)
    (hmut : ∀ q ∈ x.queries, q.args ≠ WalArgs.readonlyA)
    (hascii : ∀ q ∈ x.queries, ∀ c ∈ q.table, c < 128)
    (h : serializeXact x = Except.ok bs) :
    parseWal bs =
      Except.ok [⟨x.start_time.toNat, x.queries.map redoOfQuery⟩] ∧
    (x.start_time.toNat : Int) = x.start_time := by
  obtain ⟨hx, hne, h0⟩ := parseXactP_serializeXact x bs [] hmut hascii h
  rw [List.append_nil] at hx
  refine ⟨?_, Int.toNat_of_nonneg h0⟩
  unfold parseWal
  match bs, hx, hne with
  | b :: bs', hx, _ =>
    rw [List.length_cons, parseWalLoop, hx, exceptBind_ok]
    dsimp only
    rw [parseWalLoop, exceptBind_ok]

/-- **C6** (counterexample to the unqualified claim): a transaction holding a
single mutating DELETE on a table whose name is the one code point `é` is
serialized successfully (the header stores the character count 1, the body the
2-byte UTF-8 encoding), but parsing those bytes fails with a unicode decode
error, because the parser reads `n_chars` bytes instead of the encoded
length. -/
theorem wal_roundtrip_fails_on_nonascii_name :
    (∀ q ∈ cexXact.queries, q.args ≠ WalArgs.readonlyA) ∧
    serializeXact cexXact = Except.ok cexWalBytes ∧
    parseWal cexWalBytes = Except.error Exc.unicodeDecodeError := by
  refine ⟨?_, ?_, ?_⟩
  · decide
  · rfl
  · rfl

theorem wal_serialize_parse_roundtrip_witness :
    parseWal walWitBytes =
      Except.ok [⟨walWitXact.start_time.toNat,
        walWitXact.queries.map redoOfQuery⟩] ∧
    (walWitXact.start_time.toNat : Int) = walWitXact.start_time :=
  wal_serialize_parse_roundtrip walWitXact walWitBytes (by decide) (by decide)
    (by rfl)


theorem RT_pure (a : α) (s : EngineState) : ReadTotal (PyM.pure a) s :=
  ⟨rfl, by simp [PyM.pure]⟩

theorem RT_throw (e : Exc) (s : EngineState) :
    ReadTotal (PyM.throw e : PyM EngineState α) s :=
  ⟨rfl, by simp [PyM.throw]⟩

theorem RT_liftE (e : Except Exc α) (s : EngineState) :
    ReadTotal (liftE e : PyM EngineState α) s := by
  rcases e with x | a
  · exact RT_throw x s
  · exact RT_pure a s

theorem prod_eta_eq {σ α : Type} {p : σ × Outcome α} {s : σ} {o : Outcome α}
    (h1 : p.1 = s) (h2 : p.2 = o) : p = (s, o) := by
  rw [← h1, ← h2]

theorem Record.eq_of_parts (r1 r2 : Record) (h1 : r1.key_col = r2.key_col)
    (h2 : r1.raw_columns = r2.raw_columns)
    (h3 : r1.is_deleted = r2.is_deleted) : r1 = r2 := by
  cases r1
  cases r2
  simp_all

theorem CommitFrame_refl (s : EngineState) : CommitFrame s s :=
  ⟨rfl, rfl, rfl, rfl, rfl, rfl, rfl, rfl, rfl, rfl, rfl⟩

theorem CommitFrame_trans {a b c : EngineState} (h1 : CommitFrame a b)
    (h2 : CommitFrame b c) : CommitFrame a c := by
  obtain ⟨x1, x2, x3, x4, x5, x6, x7, x8, x9, x10, x11⟩ := h1
  obtain ⟨y1, y2, y3, y4, y5, y6, y7, y8, y9, y10, y11⟩ := h2
  exact ⟨x1.trans y1, x2.trans y2, x3.trans y3, x4.trans y4, x5.trans y5,
    x6.trans y6, x7.trans y7, x8.trans y8, x9.trans y9, x10.trans y10,
    x11.trans y11⟩

theorem CF_pure (a : α) (s : EngineState) : CF (PyM.pure a) s :=
  ⟨CommitFrame_refl s, by simp [PyM.pure]⟩

theorem CF_throw (e : Exc) (s : EngineState) :
    CF (PyM.throw e : PyM EngineState α) s :=
  ⟨CommitFrame_refl s, by simp [PyM.throw]⟩

theorem CF_getS (s : EngineState) : CF (PyM.getS : PyM EngineState EngineState) s :=
  ⟨CommitFrame_refl s, by simp [PyM.getS]⟩

theorem CF_readS (f : EngineState → α) (s : EngineState) : CF (PyM.readS f) s :=
  ⟨CommitFrame_refl s, by simp [PyM.readS]⟩

theorem CF_dictGet (v : Option α) (s : EngineState) :
    CF (dictGet v : PyM EngineState α) s := by
  rcases v with _ | a
  · exact CF_throw _ s
  · exact CF_pure a s

theorem CF_pyGet (l : List α) (i : Nat) (s : EngineState) :
    CF (PyM.pyGet l i : PyM EngineState α) s := by
  unfold PyM.pyGet
  rcases l.get? i with _ | a
  · exact CF_throw _ s
  · exact CF_pure a s

theorem CF_modifyS {g : EngineState → EngineState}
    (h : ∀ s, CommitFrame (g s) s) (s : EngineState) : CF (PyM.modifyS g) s :=
  ⟨h s, by simp [PyM.modifyS]⟩

theorem CF_bind {m : PyM EngineState α} {f : α → PyM EngineState β}
    {s : EngineState} (hm : CF m s)
    (hf : ∀ a s1, m s = (s1, Outcome.ok a) → CF (f a) s1) :
    CF (PyM.bind m f) s := by
  obtain ⟨h1, h2⟩ := hm
  rcases hout : (m s).2 with a | e | _
  · have hms : m s = ((m s).1, Outcome.ok a) := prod_eta_eq rfl hout
    have hfa := hf a (m s).1 hms
    unfold CF at hfa ⊢
    unfold PyM.bind
    rw [hms]
    exact ⟨CommitFrame_trans hfa.1 h1, hfa.2⟩
  · have hms : m s = ((m s).1, Outcome.exc e) := prod_eta_eq rfl hout
    unfold CF PyM.bind
    rw [hms]
    exact ⟨h1, by simp⟩
  · exact absurd hout h2

theorem CF_tryCatch {m : PyM EngineState α} {s : EngineState} (d : α)
    (hm : CF m s) : CF (PyM.tryCatch m d) s := by
  obtain ⟨h1, h2⟩ := hm
  rcases hout : (m s).2 with a | e | _
  · have hms : m s = ((m s).1, Outcome.ok a) := prod_eta_eq rfl hout
    unfold CF PyM.tryCatch
    rw [hms]
    exact ⟨h1, by simp⟩
  · have hms : m s = ((m s).1, Outcome.exc e) := prod_eta_eq rfl hout
    unfold CF PyM.tryCatch
    rw [hms]
    exact ⟨h1, by simp⟩
  · exact absurd hout h2

theorem CF_markResolved (rid : Int) (s : EngineState) : CF (markResolved rid) s := by
  unfold markResolved
  simp only [PyM.bind_eq, PyM.pure_eq]
  refine CF_bind (CF_getS s) fun s0 s1 h0 => ?_
  refine CF_bind (CF_dictGet _ s1) fun locs s2 h1 => ?_
  refine CF_bind (CF_pyGet locs 0 s2) fun page_id s3 h2 => ?_
  by_cases hb : page_id.is_base = true
  · rw [if_pos hb]
    exact CF_modifyS (fun t => ⟨rfl, rfl, rfl, rfl, rfl, rfl, rfl, rfl, rfl, rfl, rfl⟩) s3
  · rw [if_neg hb]
    refine CF_bind (CF_modifyS (fun t => ⟨rfl, rfl, rfl, rfl, rfl, rfl, rfl, rfl, rfl, rfl, rfl⟩) s3) fun u s4 h3 => ?_
    refine CF_bind (CF_getS s4) fun s5 s6 h4 => ?_
    refine CF_bind (CF_dictGet _ s6) fun bp_idx s7 h5 => ?_
    by_cases hc1 : s5.dir.con_bp_num_resolved bp_idx ≠ s5.maxRecs
    · rw [if_pos hc1]
      exact CF_pure () s7
    · rw [if_neg hc1]
      by_cases hc2 : s5.dir.con_tp_num_resolved page_id.page_index ≠ s5.maxRecs
      · rw [if_pos hc2]
        exact CF_pure () s7
      · rw [if_neg hc2]
        exact CF_modifyS (fun t => ⟨rfl, rfl, rfl, rfl, rfl, rfl, rfl, rfl, rfl, rfl, rfl⟩) s7

theorem CF_notifyResolve (rids : List Int) : ∀ s, CF (notifyResolve rids) s := by
  unfold notifyResolve
  induction rids with
  | nil => exact fun s => CF_pure () s
  | cons r rs ih =>
    intro s
    exact CF_bind (CF_markResolved r s) fun u s1 h1 => ih s1

theorem CF_markCommitted (t : Int) (s : EngineState) : CF (markCommitted t) s := by
  unfold markCommitted
  simp only [PyM.bind_eq, PyM.pure_eq]
  refine CF_bind (CF_getS s) fun s0 s1 h0 => ?_
  by_cases hc : (s0.tracker t).isSome = true
  · rw [if_pos hc]
    exact CF_throw _ s1
  · rw [if_neg hc]
    exact CF_modifyS (fun u => ⟨rfl, rfl, rfl, rfl, rfl, rfl, rfl, rfl, rfl, rfl, rfl⟩) s1

theorem CF_xactCommit (t : Int) (rids : List Int) (s : EngineState) :
    CF (xactCommit t rids) s := by
  unfold xactCommit
  simp only [PyM.bind_eq, PyM.pure_eq]
  refine CF_tryCatch false ?_
  refine CF_bind (CF_markCommitted t s) fun u s1 h1 => ?_
  refine CF_bind (CF_notifyResolve rids s1) fun u2 s2 h2 => ?_
  exact CF_pure true s2

end LStore
